import Mathlib

/-
  Verification of the CRUMBS CRC code-generation pipeline
  (scripts/generate_crc8_arduino.py, scripts/_test_acecrc_py/generate.py,
  scripts/_test_acecrc_py/compare_acecrc.py, scripts/compare_crc8.py,
  scripts/validate_and_stage_crc8.py, scripts/test_acecrc_py/generate_all.py).

  The Python scripts operate on lists of text lines.  We embed lines as
  `String` and the per-character operations as structural recursions over
  `String.data : List Char`, so every definition is executable and
  kernel-reducible.  Python's `\w`, `\s`, `str.upper` are embedded with
  their ASCII meaning, which coincides with Python on the ASCII text the
  generator pipeline processes.
-/

namespace Crumbs

/-- ASCII word character, the class matched by `\w` in the scripts' regexes
    (the generated C text is ASCII). -/
def isWordChar (c : Char) : Bool :=
  (('a' ≤ c && c ≤ 'z') || ('A' ≤ c && c ≤ 'Z') || ('0' ≤ c && c ≤ '9') || c = '_')

/-- Substring test on character lists: does `needle` occur contiguously in
    `hay`?  This embeds Python's `needle in hay`. -/
def containsSub (needle : List Char) : List Char → Bool
  | [] => needle.isEmpty
  | c :: cs => needle.isPrefixOf (c :: cs) || containsSub needle cs

/-- Python `needle in hay` on strings. -/
def strContains (hay needle : String) : Bool :=
  containsSub needle.data hay.data

/-- Python `s.startswith(p)`. -/
def pyStartswith (s p : String) : Bool :=
  p.data.isPrefixOf s.data

/-- Whitespace class used by `str.strip`/`str.split` (ASCII fragment). -/
def isPySpace (c : Char) : Bool :=
  c = ' ' || c = '\t' || c = '\n' || c = '\r' || c = '\x0b' || c = '\x0c'

/-- Python `s.lstrip()` (character-list form). -/
def lstripL (cs : List Char) : List Char :=
  cs.dropWhile isPySpace

/-- Python `s.rstrip()` (character-list form). -/
def rstripL (cs : List Char) : List Char :=
  (cs.reverse.dropWhile isPySpace).reverse

/-- Python `s.lstrip()`. -/
def pyLstrip (s : String) : String :=
  ⟨lstripL s.data⟩

/-- Python `s.rstrip()`. -/
def pyRstrip (s : String) : String :=
  ⟨rstripL s.data⟩

/-- Python `s.strip()`. -/
def pyStrip (s : String) : String :=
  ⟨rstripL (lstripL s.data)⟩

/-- Helper for whitespace splitting: returns the word currently being read
    (the run of non-space characters at the head) together with the words of
    the remainder.  Structural right fold. -/
def splitWsAux : List Char → List Char × List (List Char)
  | [] => ([], [])
  | c :: cs =>
    let r := splitWsAux cs
    if isPySpace c then
      ([], if r.1.isEmpty then r.2 else r.1 :: r.2)
    else
      (c :: r.1, r.2)

/-- Python `s.split()` — split on whitespace runs, discarding empties. -/
def pySplit (s : String) : List String :=
  let r := splitWsAux s.data
  (if r.1.isEmpty then r.2 else r.1 :: r.2).map fun w => ⟨w⟩

/-- One step of Python `str.replace`: `skip` counts characters that belong
    to an already-replaced match and must be dropped.  Structural in the
    character list, so concrete inputs evaluate in the kernel. -/
def replaceAllAux (old new : List Char) (skip : Nat) : List Char → List Char
  | [] => []
  | c :: cs =>
    match skip with
    | k + 1 => replaceAllAux old new k cs
    | 0 =>
      if !old.isEmpty && old.isPrefixOf (c :: cs) then
        new ++ replaceAllAux old new (old.length - 1) cs
      else
        c :: replaceAllAux old new 0 cs

/-- Python `s.replace(old, new)` — every non-overlapping occurrence,
    left to right. -/
def pyReplace (s old new : String) : String :=
  ⟨replaceAllAux old.data new.data 0 s.data⟩

/-- Auxiliary for `str.replace` with `count = 1`: replace only the first
    occurrence. -/
def replaceOneAux (old new : List Char) : List Char → List Char
  | [] => []
  | c :: cs =>
    if !old.isEmpty && old.isPrefixOf (c :: cs) then
      new ++ (c :: cs).drop old.length
    else
      c :: replaceOneAux old new cs

/-- Python `s.replace(old, new, 1)`. -/
def pyReplace1 (s old new : String) : String :=
  ⟨replaceOneAux old.data new.data s.data⟩

/-- Index of the first line satisfying `p`, mirroring the scripts'
    `for i, line in enumerate(lines): if p(line): ... break` scans. -/
def findIdxO (p : String → Bool) : List String → Option Nat
  | [] => none
  | l :: r => if p l then some 0 else (findIdxO p r).map (· + 1)

/-- Replace the first line satisfying `p` by `f` of that line
    (the common `for ... if ...: lines[i] = ...; break` shape). -/
def replaceFirstLine (p : String → Bool) (f : String → String) : List String → List String
  | [] => []
  | l :: r => if p l then f l :: r else l :: replaceFirstLine p f r

end Crumbs

namespace Crumbs

/-! ## Comparison tooling (compare_acecrc.py and compare_crc8.py) -/

/-- `IGNORE_PATTERNS` shared by both comparison scripts. -/
def IGNORE_PATTERNS : List String :=
  ["Generated on", "by pycrc v", "Auto converted to", "DO NOT EDIT"]

/-- Line matches some ignore pattern: `any(p in line for p in IGNORE_PATTERNS)`. -/
def ignoredLine (l : String) : Bool :=
  IGNORE_PATTERNS.any fun p => strContains l p

/-- `BLANK_NOISE = re.compile(r"^\s*(\*?)\s*$")`: the regex matches exactly
    the lines that are whitespace with at most one `*` inside, i.e. lines
    whose stripped form is empty or a single star. -/
def blankNoise (l : String) : Bool :=
  pyStrip l = "" || pyStrip l = "*"

/-- `normalize_lines` of compare_acecrc.py: drop ignored and blank-noise
    lines, right-strip the rest, preserving order. -/
def normalize_lines : List String → List String
  | [] => []
  | l :: r =>
    if ignoredLine l then normalize_lines r
    else if blankNoise l then normalize_lines r
    else pyRstrip l :: normalize_lines r

/-- A line that `filter_lines` of compare_crc8.py ignores: an
    `IGNORE_PATTERNS` hit, a pure comment spacer (`*`, `/*`, `*/`, or `*`
    followed only by whitespace), or a blank line. -/
def crc8Ignored (l : String) : Bool :=
  let stripped := pyStrip l
  ignoredLine l
  || (stripped = "*" || stripped = "/*" || stripped = "*/")
  || (pyStartswith stripped "*" && pyStrip ⟨stripped.data.drop 1⟩ = "")
  || stripped = ""

/-- `filter_lines` of compare_crc8.py. -/
def filter_lines : List String → List String
  | [] => []
  | l :: r =>
    if crc8Ignored l then filter_lines r
    else pyRstrip l :: filter_lines r

/-- Declarative form of `normalize_lines` (filter then map). -/
def purifyAcecrc (ls : List String) : List String :=
  (ls.filter fun l => !(ignoredLine l || blankNoise l)).map pyRstrip

/-- Declarative form of `filter_lines` (filter then map). -/
def purifyCrc8 (ls : List String) : List String :=
  (ls.filter fun l => !crc8Ignored l).map pyRstrip

/-- compare_acecrc.py writes a `.diff` report for an existing reference
    exactly when `filtered_diff` is nonempty.  `filtered_diff` returns `[]`
    when the normalized line lists are equal, and a nonempty unified diff
    otherwise (difflib's unified diff of unequal sequences is nonempty). -/
def acecrcReportWritten (ref out : List String) : Bool :=
  !(normalize_lines ref == normalize_lines out)

/-- compare_crc8.py (non-strict mode) writes a `.diff` report for an
    existing reference exactly when the filtered diff is nonempty. -/
def crc8ReportWritten (ref out : List String) : Bool :=
  !(filter_lines ref == filter_lines out)

theorem normalize_lines_eq_purify (ls : List String) :
    normalize_lines ls = purifyAcecrc ls := by
  induction ls with
  | nil => rfl
  | cons l r ih =>
    by_cases h1 : ignoredLine l
    · simp [normalize_lines, purifyAcecrc, h1, List.filter] at ih ⊢
      simpa [purifyAcecrc] using ih
    · by_cases h2 : blankNoise l
      · simp [normalize_lines, purifyAcecrc, h1, h2, List.filter] at ih ⊢
        simpa [purifyAcecrc] using ih
      · simp [normalize_lines, purifyAcecrc, h1, h2, List.filter] at ih ⊢
        simpa [purifyAcecrc] using ih

theorem filter_lines_eq_purify (ls : List String) :
    filter_lines ls = purifyCrc8 ls := by
  induction ls with
  | nil => rfl
  | cons l r ih =>
    by_cases h1 : crc8Ignored l
    · simp [filter_lines, purifyCrc8, h1, List.filter] at ih ⊢
      simpa [purifyCrc8] using ih
    · simp [filter_lines, purifyCrc8, h1, List.filter] at ih ⊢
      simpa [purifyCrc8] using ih

/-- C5: the comparison tooling writes a line-level diff report only when a
    real difference remains after normalization.  If two files agree once
    all ignorable lines (ignore-pattern hits, blank and comment-spacer
    noise) are filtered out and trailing whitespace is stripped, then
    neither compare_acecrc.py nor compare_crc8.py writes a report for the
    pair. -/
theorem c5_no_report_without_real_difference (ref out : List String)
    (hA : purifyAcecrc ref = purifyAcecrc out)
    (hC : purifyCrc8 ref = purifyCrc8 out) :
    acecrcReportWritten ref out = false ∧ crc8ReportWritten ref out = false := by
  constructor
  · simp [acecrcReportWritten, normalize_lines_eq_purify, hA]
  · simp [crc8ReportWritten, filter_lines_eq_purify, hC]

/-- Witness for C5 at a concrete pair differing only in a provenance
    timestamp line and blank/comment-spacer lines. -/
theorem c5_witness :
    purifyAcecrc ["/*", " * Generated on Mon Jan  1", " *", "int x;", ""]
        = purifyAcecrc ["/*", " * Generated on Tue Feb  2", "int x;"]
      ∧ purifyCrc8 ["/*", " * Generated on Mon Jan  1", " *", "int x;", ""]
        = purifyCrc8 ["/*", " * Generated on Tue Feb  2", "int x;"]
      ∧ acecrcReportWritten ["/*", " * Generated on Mon Jan  1", " *", "int x;", ""]
          ["/*", " * Generated on Tue Feb  2", "int x;"] = false
      ∧ crc8ReportWritten ["/*", " * Generated on Mon Jan  1", " *", "int x;", ""]
          ["/*", " * Generated on Tue Feb  2", "int x;"] = false := by
  refine ⟨by decide, by decide, ?_, ?_⟩
  · exact (c5_no_report_without_real_difference _ _ (by decide) (by decide)).1
  · exact (c5_no_report_without_real_difference _ _ (by decide) (by decide)).2

end Crumbs

namespace Crumbs

/-! ## Loop-variable narrowing (shared stage of both source converters,
    generate.py `convert_c_to_cpp` and generate_crc8_arduino.py
    `convert_source`):
    `for i, ln in enumerate(lines): if f"unsigned int {loop_var};" in ln:
    lines[i] = f"    uint8_t {loop_var};"; break` -/

/-- The loop-variable narrowing stage, parametric in the loop variable
    (`"i"` for the bit tag, `"tbl_idx"` otherwise). -/
def narrowLoopVar (v : String) (ls : List String) : List String :=
  replaceFirstLine (fun l => strContains l ("unsigned int " ++ v ++ ";"))
    (fun _ => "    uint8_t " ++ v ++ ";") ls

theorem replaceFirstLine_decomp (p : String → Bool) (f : String → String)
    (pre : List String) (l : String) (post : List String)
    (hpre : ∀ x ∈ pre, p x = false) (hl : p l = true) :
    replaceFirstLine p f (pre ++ l :: post) = pre ++ f l :: post := by
  induction pre with
  | nil => simp [replaceFirstLine, hl]
  | cons a r ih =>
    have ha : p a = false := hpre a (List.mem_cons_self a r)
    simp only [List.cons_append, replaceFirstLine, ha, Bool.false_eq_true, if_false,
      List.cons.injEq, true_and]
    exact ih fun x hx => hpre x (List.mem_cons_of_mem a hx)

/-- C7: loop-variable narrowing.  Whatever the indentation or surrounding
    text of the first line containing `unsigned int <v>;`, that line is
    replaced by exactly `    uint8_t <v>;` (four spaces, fixed-width type)
    and every other line is left unchanged. -/
theorem c7_loop_var_narrowing (v : String) (pre : List String) (l : String)
    (post : List String)
    (hpre : ∀ x ∈ pre, strContains x ("unsigned int " ++ v ++ ";") = false)
    (hl : strContains l ("unsigned int " ++ v ++ ";") = true) :
    narrowLoopVar v (pre ++ l :: post)
      = pre ++ ("    uint8_t " ++ v ++ ";") :: post := by
  unfold narrowLoopVar
  exact replaceFirstLine_decomp _ _ pre l post hpre hl

/-- Witness for C7: a deeply indented declaration line is replaced by the
    fixed four-space narrowed declaration. -/
theorem c7_witness :
    (∀ x ∈ ["crc_t f(void) \x7b"], strContains x ("unsigned int " ++ "tbl_idx" ++ ";") = false)
      ∧ strContains "        unsigned int tbl_idx;" ("unsigned int " ++ "tbl_idx" ++ ";") = true
      ∧ narrowLoopVar "tbl_idx"
          ["crc_t f(void) \x7b", "        unsigned int tbl_idx;", "\x7d"]
        = ["crc_t f(void) \x7b", "    uint8_t tbl_idx;", "\x7d"] := by
  refine ⟨by decide, by decide, ?_⟩
  exact c7_loop_var_narrowing "tbl_idx" ["crc_t f(void) \x7b"]
    "        unsigned int tbl_idx;" ["\x7d"] (by decide) (by decide)

end Crumbs

namespace Crumbs

/-! ## Staging (validate_and_stage_crc8.py, `stage_variations`) -/

/-- A directory listing entry as seen by `Path.iterdir`. -/
structure DirEntry where
  name : String
  isFile : Bool
deriving DecidableEq, Repr

/-- Index of the last occurrence of `c`, or `none`: `str.rfind`. -/
def lastIdxOf (c : Char) : List Char → Option Nat
  | [] => none
  | a :: r =>
    match lastIdxOf c r with
    | some i => some (i + 1)
    | none => if a = c then some 0 else none

/-- `pathlib.PurePath.stem`: the final component without its last suffix.
    A suffix exists when the last dot index `i` satisfies
    `0 < i < len(name) - 1`; otherwise the stem is the whole name. -/
def pyStem (name : String) : String :=
  match lastIdxOf '.' name.data with
  | some i =>
    if 0 < i ∧ i < name.data.length - 1 then ⟨name.data.take i⟩ else name
  | none => name

/-- One staging loop of `stage_variations`: for each algo token, copy every
    entry of the (sorted) source listing that is a file and whose stem is
    exactly `crc8_<algo>`.  Returns the copied names in copy order and the
    `rc` flag (1 when the source directory is missing, reached by `break`). -/
def stageDirCopies (srcExists : Bool) (algos : List String)
    (entries : List DirEntry) : List String × Nat :=
  match algos with
  | [] => ([], 0)
  | a :: r =>
    if srcExists then
      (((entries.filter fun e => e.isFile && pyStem e.name == "crc8_" ++ a).map
          fun e => e.name)
        ++ (stageDirCopies srcExists r entries).1,
       (stageDirCopies srcExists r entries).2)
    else
      ([], 1)

/-- `stage_variations(algos)`: stage the c99 listing then the arduino
    listing; `rc` is 1 when either source directory was missing. -/
def stage_variations (c99Exists ardExists : Bool) (algos : List String)
    (c99Entries ardEntries : List DirEntry) :
    List String × List String × Nat :=
  let s1 := stageDirCopies c99Exists algos c99Entries
  let s2 := stageDirCopies ardExists algos ardEntries
  (s1.1, s2.1, max s1.2 s2.2)

theorem stageDirCopies_mem (algos : List String) (entries : List DirEntry)
    (name : String) :
    name ∈ (stageDirCopies true algos entries).1
      ↔ ∃ e ∈ entries, e.isFile = true ∧ name = e.name
          ∧ ∃ a ∈ algos, pyStem e.name = "crc8_" ++ a := by
  induction algos with
  | nil => simp [stageDirCopies]
  | cons a r ih =>
    simp only [stageDirCopies, if_true, List.mem_append, ih,
      List.mem_map, List.mem_filter, Bool.and_eq_true, beq_iff_eq, List.mem_cons]
    constructor
    · rintro (⟨e, ⟨he, hf, hs⟩, hn⟩ | ⟨e, he, hf, hn, b, hb, hs⟩)
      · exact ⟨e, he, hf, hn.symm, a, Or.inl rfl, hs⟩
      · exact ⟨e, he, hf, hn, b, Or.inr hb, hs⟩
    · rintro ⟨e, he, hf, hn, b, hb | hb, hs⟩
      · exact Or.inl ⟨e, ⟨he, hf, hb ▸ hs⟩, hn.symm⟩
      · exact Or.inr ⟨e, he, hf, hn, b, hb, hs⟩

/-- C9: staging selects files by exact filename-stem equality.  With both
    source listings present, a name is copied from a listing if and only if
    it is the name of a file entry whose stem equals `crc8_<algo>` for some
    requested algo token — for both the c99 and the arduino staging loops. -/
theorem c9_stage_exact_stem (algos : List String)
    (c99Entries ardEntries : List DirEntry) (name : String) :
    (name ∈ (stage_variations true true algos c99Entries ardEntries).1
       ↔ ∃ e ∈ c99Entries, e.isFile = true ∧ name = e.name
           ∧ ∃ a ∈ algos, pyStem e.name = "crc8_" ++ a)
    ∧ (name ∈ (stage_variations true true algos c99Entries ardEntries).2.1
       ↔ ∃ e ∈ ardEntries, e.isFile = true ∧ name = e.name
           ∧ ∃ a ∈ algos, pyStem e.name = "crc8_" ++ a) := by
  constructor
  · simpa [stage_variations] using stageDirCopies_mem algos c99Entries name
  · simpa [stage_variations] using stageDirCopies_mem algos ardEntries name

end Crumbs

namespace Crumbs

/-! ## CLI orchestration of _test_acecrc_py/generate.py (`main`).
    We give `main` an action-trace semantics: the effectful steps it can
    perform (spawning pycrc, converting a file — each conversion reads and
    writes files) are recorded as actions, and a raised exception is the
    second component.  An error with an empty action list means the run
    aborted before any external invocation or file I/O. -/

/-- Effectful steps of `main`, in program order. -/
inductive GenAction where
  | runPycrc (model flags outFile mode : String)
  | convertHeader (modelroot algotag oldGuard newGuard : String)
  | convertSource (modelroot algotag pgmFunc : String)
deriving DecidableEq, Repr

/-- Association-list lookup, embedding `dict.get`. -/
def lookupStr (m : List (String × String)) (k : String) : Option String :=
  match m with
  | [] => none
  | (a, b) :: r => if a = k then some b else lookupStr r k

/-- The `--algotag` choices accepted by argparse. -/
def algotagChoices : List String :=
  ["bit", "nibble", "nibblem", "byte"]

/-- The per-tag pycrc flag strings (`algo_flags` dict). -/
def algoFlagsMap : List (String × String) :=
  [("bit", "--algorithm bit-by-bit-fast"),
   ("nibble", "--algorithm table-driven --table-idx-width 4"),
   ("nibblem", "--algorithm table-driven --table-idx-width 4"),
   ("byte", "--algorithm table-driven --table-idx-width 8")]

/-- `pgm_map`: memory-read function by CRC model. -/
def pgm_map : List (String × String) :=
  [("crc-8", "pgm_read_byte"),
   ("crc-16-ccitt", "pgm_read_word"),
   ("crc-16-modbus", "pgm_read_word"),
   ("crc-32", "pgm_read_dword")]

/-- `main` of _test_acecrc_py/generate.py: argparse validation, guard and
    flag computation, `pgm_map.get(model)` with `raise ValueError` on a
    miss, then (depending on `--header`/`--source`) pycrc invocation and
    conversion for each requested unit. -/
def generateMain (model algotag : String) (header source : Bool) :
    List GenAction × Option String :=
  if algotag ∈ algotagChoices then
    match lookupStr algoFlagsMap algotag with
    | none => ([], some "KeyError: algotag")
    | some flags =>
      match lookupStr pgm_map model with
      | none => ([], some ("Unknown model " ++ model))
      | some pgmFunc =>
        ((if header then
            [GenAction.runPycrc model flags (pyReplace model "-" "" ++ "_" ++ algotag ++ ".h") "h",
             GenAction.convertHeader (pyReplace model "-" "") algotag
               ((pyReplace model "-" "").toUpper ++ "_" ++ algotag.toUpper ++ "_H")
               ("ACE_CRC_" ++ (pyReplace model "-" "").toUpper ++ "_" ++ algotag.toUpper ++ "_HPP")]
          else [])
          ++ (if source then
            [GenAction.runPycrc model flags (pyReplace model "-" "" ++ "_" ++ algotag ++ ".c") "c",
             GenAction.convertSource (pyReplace model "-" "") algotag pgmFunc]
          else []),
         none)
  else
    ([], some "argparse: invalid choice for --algotag")

/-- C6: a conversion request whose model has no memory-read function in
    `pgm_map` is a configuration error: `main` raises `ValueError` before
    any pycrc process is spawned and before any conversion file I/O — the
    action trace is empty. -/
theorem c6_unknown_model_aborts_early (model algotag : String)
    (header source : Bool)
    (htag : algotag ∈ algotagChoices)
    (hmodel : lookupStr pgm_map model = none) :
    generateMain model algotag header source
      = ([], some ("Unknown model " ++ model)) := by
  have hflags : ∃ f, lookupStr algoFlagsMap algotag = some f := by
    fin_cases htag <;> exact ⟨_, rfl⟩
  rcases hflags with ⟨f, hf⟩
  have htag' : algotag ∈ algotagChoices := by
    fin_cases htag <;> decide
  simp [generateMain, htag', hf, hmodel]

/-- Witness for C6 at the concrete unknown model `crc-64`. -/
theorem c6_witness :
    "bit" ∈ algotagChoices
      ∧ lookupStr pgm_map "crc-64" = none
      ∧ generateMain "crc-64" "bit" true true
          = ([], some ("Unknown model " ++ "crc-64")) := by
  refine ⟨by decide, by decide, ?_⟩
  exact c6_unknown_model_aborts_early "crc-64" "bit" true true (by decide) (by decide)

end Crumbs

namespace Crumbs

/-! ## Batch driver (test_acecrc_py/generate_all.py).
    `run(cmd)` is `subprocess.run(cmd, check=True)`: a non-zero generator
    exit raises `CalledProcessError`, and `main` has no try/except, so the
    exception propagates.  We model each generator invocation as a triple
    `(model, algo, mode)` with an oracle giving its exit status, and `main`
    as the list of invocations actually issued plus the pair whose failure
    raised (or `none` on full success). -/

/-- A generator invocation of generate_all.py: `(model, algotag, mode)`
    where mode is `--header` or `--source`. -/
abbrev BatchCall := String × String × String

/-- Process the (model, algotag) pairs in order.  Each pair issues its
    header call then its source call; `check=True` means the first failing
    call raises, so nothing after it is issued. -/
def runPairs (ok : BatchCall → Bool) :
    List (String × String) → List BatchCall × Option (String × String)
  | [] => ([], none)
  | (m, a) :: rest =>
    if ok (m, a, "--header") then
      if ok (m, a, "--source") then
        ((m, a, "--header") :: (m, a, "--source") :: (runPairs ok rest).1,
         (runPairs ok rest).2)
      else
        ([(m, a, "--header"), (m, a, "--source")], some (m, a))
    else
      ([(m, a, "--header")], some (m, a))

/-- The model list of generate_all.py. -/
def MODELS : List String :=
  ["crc-8", "crc-16-ccitt", "crc-16-modbus", "crc-32"]

/-- The algorithm-tag list of generate_all.py. -/
def ALGOTAGS : List String :=
  ["bit", "nibble", "nibblem", "byte"]

/-- `main` of generate_all.py: the cross product MODELS x ALGOTAGS, models
    outer, algotags inner. -/
def generate_all_main (ok : BatchCall → Bool) :
    List BatchCall × Option (String × String) :=
  runPairs ok ((MODELS.map fun m => ALGOTAGS.map fun a => (m, a)).flatten)

/-- Both calls of every fully processed pair, in issue order. -/
def callsOf (pairs : List (String × String)) : List BatchCall :=
  (pairs.map fun p => [(p.1, p.2, "--header"), (p.1, p.2, "--source")]).flatten

/-- C2 counterexample: with a generator that fails only on the header call
    of the pair (crc-8, nibble), the batch stops right there — the later
    pair (crc-8, nibblem) is never attempted and the run ends in an
    uncaught exception naming the failing pair, contradicting the claimed
    skip-and-continue (fail-soft) semantics. -/
theorem c2_counterexample :
    generate_all_main (fun c => !(c == ("crc-8", "nibble", "--header")))
      = ([("crc-8", "bit", "--header"), ("crc-8", "bit", "--source"),
          ("crc-8", "nibble", "--header")],
         some ("crc-8", "nibble"))
    ∧ ("crc-8", "nibblem", "--header")
        ∉ (generate_all_main (fun c => !(c == ("crc-8", "nibble", "--header")))).1 := by
  constructor
  · decide
  · decide

/-- C2 as amended: batch processing is fail-stop, not fail-soft.  If every
    pair before `(m, a)` succeeds and the header call of `(m, a)` exits
    non-zero, then the driver issues exactly the calls of the earlier pairs
    followed by the failing header call, raises with that pair, and issues
    no call for any remaining pair. -/
theorem c2_fail_stop (ok : BatchCall → Bool) (pre : List (String × String))
    (m a : String) (post : List (String × String))
    (hpre : ∀ p ∈ pre, ok (p.1, p.2, "--header") = true
                     ∧ ok (p.1, p.2, "--source") = true)
    (hfail : ok (m, a, "--header") = false) :
    runPairs ok (pre ++ (m, a) :: post)
      = (callsOf pre ++ [(m, a, "--header")], some (m, a)) := by
  induction pre with
  | nil => simp [runPairs, hfail, callsOf]
  | cons p r ih =>
    obtain ⟨h1, h2⟩ := hpre p (List.mem_cons_self p r)
    have ih' := ih fun q hq => hpre q (List.mem_cons_of_mem p hq)
    cases p with
    | mk pm pa =>
      simp [runPairs, h1, h2, ih', callsOf]

/-- Witness for C2's amended theorem at a concrete failing batch. -/
theorem c2_fail_stop_witness :
    (∀ p ∈ [("crc-8", "bit")],
        (fun c => !(c == ("crc-8", "nibble", "--header"))) (p.1, p.2, "--header") = true
        ∧ (fun c => !(c == ("crc-8", "nibble", "--header"))) (p.1, p.2, "--source") = true)
    ∧ runPairs (fun c => !(c == ("crc-8", "nibble", "--header")))
        ([("crc-8", "bit")] ++ ("crc-8", "nibble") :: [("crc-8", "nibblem")])
      = (callsOf [("crc-8", "bit")] ++ [("crc-8", "nibble", "--header")],
         some ("crc-8", "nibble")) := by
  refine ⟨by decide, ?_⟩
  exact c2_fail_stop _ [("crc-8", "bit")] "crc-8" "nibble" [("crc-8", "nibblem")]
    (by decide) (by decide)

end Crumbs

namespace Crumbs

/-! ## Word-boundary substitution (`wreplace` in generate_crc8_arduino.py,
    both in `convert_header` and `convert_source`).

    `re.sub(r"\bX\b", new, s)` for a pattern `X` made only of word
    characters: a match needs a non-word character (or the string edge)
    immediately before and after the literal `X`.  The scanner below walks
    the characters once; `pw` records whether the previous character of the
    original string was a word character (the `\b` look-behind), and `skip`
    counts characters of an already-replaced match still to consume (the
    regex engine resumes scanning after each match). -/

/-- The character after the match must be a non-word character or the end
    of the string (the trailing `\b` for an all-word-character pattern). -/
def nextNonWord : List Char → Bool
  | [] => true
  | d :: _ => !isWordChar d

/-- Scanner for `re.sub(r"\b<old>\b", new, -)` where `old` consists only of
    word characters. -/
def wbSubAux (old new : List Char) (skip : Nat) (pw : Bool) : List Char → List Char
  | [] => []
  | c :: cs =>
    match skip with
    | k + 1 => wbSubAux old new k (isWordChar c) cs
    | 0 =>
      if !pw && !old.isEmpty && old.isPrefixOf (c :: cs)
         && nextNonWord ((c :: cs).drop old.length) then
        new ++ wbSubAux old new (old.length - 1) (isWordChar c) cs
      else
        c :: wbSubAux old new 0 (isWordChar c) cs

/-- `re.sub(r"\b<old>\b", new, s)` for an all-word-character `old`. -/
def wbSub (old new s : String) : String :=
  ⟨wbSubAux old.data new.data 0 false s.data⟩

/-- The character class `[A-Z0-9_]` of the `CRC_ALGO` rule. -/
def isClassChar (c : Char) : Bool :=
  (('A' ≤ c && c ≤ 'Z') || ('0' ≤ c && c ≤ '9') || c = '_')

/-- The literal head of the `CRC_ALGO` pattern. -/
def algoLit : List Char :=
  "CRC_ALGO_".data

/-- Scanner for `re.sub(r"\bCRC_ALGO_([A-Z0-9_]+)\b", PU + "_ALGO_" + g, -)`.
    After the literal, the group is the maximal run of class characters;
    the trailing `\b` forces a non-word character (or the end) after it —
    backtracking to a shorter group always lands before a class character,
    which is a word character, so a match exists exactly when the maximal
    run is nonempty and followed by a non-word character or the end. -/
def algoSubAux (pu : List Char) (skip : Nat) (pw : Bool) : List Char → List Char
  | [] => []
  | c :: cs =>
    match skip with
    | k + 1 => algoSubAux pu k (isWordChar c) cs
    | 0 =>
      if !pw && algoLit.isPrefixOf (c :: cs)
         && !(((c :: cs).drop 9).takeWhile isClassChar).isEmpty
         && nextNonWord (((c :: cs).drop 9).dropWhile isClassChar) then
        pu ++ "_ALGO_".data ++ ((c :: cs).drop 9).takeWhile isClassChar
          ++ algoSubAux pu (9 + (((c :: cs).drop 9).takeWhile isClassChar).length - 1)
              (isWordChar c) cs
      else
        c :: algoSubAux pu 0 (isWordChar c) cs

/-- The `CRC_ALGO` substitution of `wreplace`, with `pu` the uppercased
    symbol root. -/
def algoSub (pu s : String) : String :=
  ⟨algoSubAux pu.data 0 false s.data⟩

/-- Python `str.upper` (ASCII fragment). -/
def pyUpper (s : String) : String :=
  ⟨s.data.map Char.toUpper⟩

/-- `wreplace` of generate_crc8_arduino.py: word-boundary replacement of
    the six well-known identifiers and the `CRC_ALGO_*` constant family,
    in program order. -/
def wreplace (pfx : String) (s : String) : String :=
  algoSub (pyUpper pfx)
    (wbSub "crc_table" (pfx ++ "_crc_table")
      (wbSub "crc_calculate" (pfx ++ "_calculate")
        (wbSub "crc_finalize" (pfx ++ "_finalize")
          (wbSub "crc_update" (pfx ++ "_update")
            (wbSub "crc_init" (pfx ++ "_init")
              (wbSub "crc_t" (pfx ++ "_t") s))))))

end Crumbs

namespace Crumbs

/-! ## Header conversion stages of _test_acecrc_py/generate.py
    (`convert_h_to_hpp`). -/

/-- `autogen_comment_lines()` with the timestamp as a parameter. -/
def autogen_comment_lines (ts : String) : List String :=
  [" * Auto converted to Arduino C++ on " ++ ts,
   " * by AceCRC (https://github.com/bxparks/AceCRC).",
   " * DO NOT EDIT"]

/-- `insert_before_first_match`: insert before the first match, or append
    at the end when no line matches (the documented permissive fallback). -/
def insert_before_first_match (p : String → Bool) (newLines ls : List String) :
    List String :=
  match findIdxO p ls with
  | some i => ls.take i ++ newLines ++ ls.drop i
  | none => ls ++ newLines

/-- `replace_range_with(lines, start, count, new)`:
    `lines[:start] + new + lines[start+count:]`. -/
def replace_range_with (ls : List String) (start cnt : Nat) (newLines : List String) :
    List String :=
  ls.take start ++ newLines ++ ls.drop (start + cnt)

/-- Step 2 of `convert_h_to_hpp`: replace the old guard in the `#ifndef`
    line and the line after it — only when such a line exists and is not
    the last line. -/
def fixGuardPair (oldG newG : String) (ls : List String) : List String :=
  match findIdxO (fun l => strContains l ("#ifndef " ++ oldG)) ls with
  | some i =>
    if i + 1 < ls.length then
      (ls.set i (pyReplace (ls.getD i "") oldG newG)).set (i + 1)
        (pyReplace (ls.getD (i + 1) "") oldG newG)
    else ls
  | none => ls

/-- Predicate for the `#ifdef __cplusplus` marker lines. -/
def cppIfdefTest (l : String) : Bool :=
  pyStartswith (pyStrip l) "#ifdef __cplusplus"

/-- The namespace-open block spliced in place of the first conditional
    block. -/
def nsOpenBlock (fileroot : String) : List String :=
  ["namespace ace_crc \x7b",
   "namespace " ++ fileroot ++ " \x7b"]

/-- Step 3: first `#ifdef __cplusplus` block (3 lines) becomes the
    namespace-open block; silently skipped when absent. -/
def fixFirstCppBlock (fileroot : String) (ls : List String) : List String :=
  match findIdxO cppIfdefTest ls with
  | some i => replace_range_with ls i 3 (nsOpenBlock fileroot)
  | none => ls

/-- Predicate of step 4: a `#define` line carrying `CRC_ALGO`. -/
def algoDefTest (l : String) : Bool :=
  strContains l "CRC_ALGO" && pyStartswith (pyStrip l) "#define"

/-- Rewrite of step 4: `#define NAME VALUE` becomes
    `static const uint8_t NAME = VALUE;` (only with at least 3
    whitespace-separated parts). -/
def algoDefRewrite (l : String) : String :=
  match pySplit l with
  | _ :: name :: value :: _ =>
    "static const uint8_t " ++ name ++ " = " ++ value ++ ";"
  | _ => l

/-- Step 4: convert the first `#define CRC_ALGO_*` line. -/
def fixAlgoDefine (ls : List String) : List String :=
  replaceFirstLine algoDefTest algoDefRewrite ls

/-- The one-shot wrapper plus namespace close spliced in place of the
    second conditional block. -/
def oneshotBlock (fileroot : String) : List String :=
  ["/**",
   " * Calculate the crc in one-shot.",
   " * This is a convenience function added by AceCRC.",
   " *",
   " * \\param[in] data     Pointer to a buffer of \\a data_len bytes.",
   " * \\param[in] data_len Number of bytes in the \\a data buffer.",
   " */",
   "inline crc_t crc_calculate(const void *data, size_t data_len) \x7b",
   "  crc_t crc = crc_init();",
   "  crc = crc_update(crc, data, data_len);",
   "  return crc_finalize(crc);",
   "\x7d",
   "",
   "\x7d // " ++ fileroot,
   "\x7d // ace_crc"]

/-- Step 5: the (now) first `#ifdef __cplusplus` block becomes the one-shot
    wrapper block; silently skipped when absent. -/
def fixSecondCppBlock (fileroot : String) (ls : List String) : List String :=
  match findIdxO cppIfdefTest ls with
  | some i => replace_range_with ls i 3 (oneshotBlock fileroot)
  | none => ls

/-- Step 6: rename the guard in the first `#endif` line mentioning it. -/
def fixEndifGuard (oldG newG : String) (ls : List String) : List String :=
  replaceFirstLine (fun l => strContains l "#endif" && strContains l oldG)
    (fun l => pyReplace l oldG newG) ls

/-- Step 7 (shared verbatim with generate_crc8_arduino.py): remove one
    leading `static ` from a line, preserving indentation. -/
def stripStaticLine (l : String) : String :=
  if pyStartswith (pyLstrip l) "static " then
    ⟨l.data.takeWhile isPySpace ++ (lstripL l.data).drop 7⟩
  else l

/-- Step 7 over all lines. -/
def stripStatics (ls : List String) : List String :=
  ls.map stripStaticLine

/-- Step 8: narrow the first `typedef uint_fast` (first occurrence only,
    `count=1`). -/
def fixTypedefFirst (ls : List String) : List String :=
  replaceFirstLine (fun l => strContains l "typedef uint_fast")
    (fun l => pyReplace1 l "typedef uint_fast" "typedef uint") ls

/-- `convert_h_to_hpp` of _test_acecrc_py/generate.py, as the text
    transformation from the pycrc header lines to the emitted `.hpp`
    lines (the file read/write and unlink around it are I/O glue). -/
def convert_h_to_hpp (modelroot algotag oldG newG ts : String)
    (lines : List String) : List String :=
  fixTypedefFirst
    (stripStatics
      (fixEndifGuard oldG newG
        (fixSecondCppBlock (modelroot ++ "_" ++ algotag)
          (fixAlgoDefine
            (fixFirstCppBlock (modelroot ++ "_" ++ algotag)
              (fixGuardPair oldG newG
                (insert_before_first_match (fun l => strContains l " */")
                  (autogen_comment_lines ts) lines)))))))

end Crumbs

namespace Crumbs

/-! ## Source conversion of _test_acecrc_py/generate.py
    (`convert_c_to_cpp`). -/

/-- Replace the self-include line, returning its index when found
    (the `for ... else` of the Python code). -/
def includeReplaceWithIdx (fileroot : String) (ls : List String) :
    List String × Option Nat :=
  match findIdxO (fun l => strContains l ("#include \"" ++ fileroot ++ ".h\"")) ls with
  | some i =>
    (ls.set i ("#include \"" ++ fileroot ++ ".hpp\" // header file converted by AceCRC"),
     some i)
  | none => (ls, none)

/-- Namespace-open insertion after the first blank line, with the
    append-at-end fallback. -/
def nsInsertAfterBlank (fileroot : String) (ls : List String) : List String :=
  match findIdxO (fun l => pyStrip l = "") ls with
  | some i =>
    ls.take (i + 1)
      ++ ["namespace ace_crc \x7b", "namespace " ++ fileroot ++ " \x7b", ""]
      ++ ls.drop (i + 1)
  | none =>
    ls ++ ["", "namespace ace_crc \x7b", "namespace " ++ fileroot ++ " \x7b", ""]

/-- Namespace close appended at end of file. -/
def nsClose (fileroot : String) (ls : List String) : List String :=
  ls ++ ["", "\x7d // " ++ fileroot, "\x7d // ace_crc"]

/-- The pgmspace include block. -/
def pgmBlock : List String :=
  ["#if defined(ARDUINO_ARCH_AVR) || defined(ARDUINO_ARCH_SAMD)",
   "  #include <avr/pgmspace.h>",
   "#else",
   "  #include <pgmspace.h>",
   "#endif"]

/-- Insert the pgmspace block before the recorded include index. -/
def pgmIncludeInsert (idx : Option Nat) (ls : List String) : List String :=
  match idx with
  | some i => ls.take i ++ pgmBlock ++ ls.drop i
  | none => ls

/-- PROGMEM-annotate the first table-initializer line
    (`line.replace("= {", "PROGMEM = {", 1)`). -/
def progmemAnnotate1 (ls : List String) : List String :=
  replaceFirstLine (fun l => strContains l "crc_table" && strContains l "= \x7b")
    (fun l => pyReplace1 l "= \x7b" "PROGMEM = \x7b") ls

/-- Scanner for `re.sub(r"crc_table\[(tbl_idx[^\]]*)\]", rep, -)`: the
    literal `crc_table[tbl_idx` (17 characters), then the maximal run of
    non-`]` characters, then a closing `]`; replaced by
    `(<pgm>(crc_table + (<group>)))` with the group re-emitted verbatim. -/
def tblSubAux (pgm : List Char) (skip : Nat) : List Char → List Char
  | [] => []
  | c :: cs =>
    match skip with
    | k + 1 => tblSubAux pgm k cs
    | 0 =>
      if ("crc_table[tbl_idx".data).isPrefixOf (c :: cs)
         && !(((c :: cs).drop 17).dropWhile (fun d => !(d = ']'))).isEmpty then
        ('(' :: pgm) ++ "(crc_table + (tbl_idx".data
          ++ ((c :: cs).drop 17).takeWhile (fun d => !(d = ']'))
          ++ ")))".data
          ++ tblSubAux pgm
              (17 + (((c :: cs).drop 17).takeWhile (fun d => !(d = ']'))).length) cs
      else
        c :: tblSubAux pgm 0 cs

/-- The table-index rewriting applied to one line when it contains
    `crc_table[`. -/
def tableIdxSubLine (pgm : String) (l : String) : String :=
  if strContains l "crc_table[" then ⟨tblSubAux pgm.data 0 l.data⟩ else l

/-- The table-index rewriting pass over all lines. -/
def tableIdxRewrite (pgm : String) (ls : List String) : List String :=
  ls.map (tableIdxSubLine pgm)

/-- `convert_c_to_cpp` of _test_acecrc_py/generate.py: the transformation
    from the pycrc source lines to the emitted `.cpp` lines.  `toggle` is
    the module-level `CONVERT_TO_PROGMEM` flag. -/
def convert_c_to_cpp (modelroot algotag pgm : String) (toggle : Bool)
    (ts : String) (lines : List String) : List String :=
  let fileroot := modelroot ++ "_" ++ algotag
  let ls1 := insert_before_first_match (fun l => strContains l " */")
    (autogen_comment_lines ts) lines
  let pr := includeReplaceWithIdx fileroot ls1
  let loopVar := if algotag = "bit" then "i" else "tbl_idx"
  if (algotag = "bit" || algotag = "nibblem") || !toggle then
    nsClose fileroot (narrowLoopVar loopVar (nsInsertAfterBlank fileroot pr.1))
  else
    nsClose fileroot
      (narrowLoopVar loopVar
        (tableIdxRewrite pgm
          (progmemAnnotate1
            (nsInsertAfterBlank fileroot (pgmIncludeInsert pr.2 pr.1)))))

end Crumbs

namespace Crumbs

/-! ## generate_crc8_arduino.py: `convert_header` and `convert_source`. -/

/-- `autogen_comment()` of generate_crc8_arduino.py. -/
def ardAutogen (ts : String) : List String :=
  [" * Auto converted to Arduino C++ on " ++ ts,
   " * DO NOT EDIT"]

/-- `insert_auto_comment`: insert the auto comment before the first line
    containing `*/`; when no line matches, nothing is inserted. -/
def insert_auto_comment (ts : String) (ls : List String) : List String :=
  match findIdxO (fun l => strContains l "*/") ls with
  | some i => ls.take i ++ ardAutogen ts ++ ls.drop i
  | none => ls

/-- Arduino guard renaming: `ln.replace(old_guard, new_guard)` over every
    line. -/
def guardReplaceAll (oldG newG : String) (ls : List String) : List String :=
  ls.map fun l => pyReplace l oldG newG

/-- Arduino step: normalize the first `#ifdef __cplusplus` block to the
    canonical three-line `extern "C"` open. -/
def ardFixCppOpen (ls : List String) : List String :=
  match findIdxO cppIfdefTest ls with
  | some i =>
    replace_range_with ls i 3 ["#ifdef __cplusplus", "extern \"C\" \x7b", "#endif"]
  | none => ls

/-- Arduino step: convert the first `#define CRC_ALGO...` line (the parts
    are read without a length guard; pycrc's define always has a value). -/
def ardFixAlgoDefine (ls : List String) : List String :=
  replaceFirstLine (fun l => pyStartswith (pyStrip l) "#define CRC_ALGO")
    algoDefRewrite ls

/-- Last index satisfying `p` (the arduino one-shot scan has no `break`,
    so `insert_at` ends at the last `#ifdef __cplusplus`). -/
def lastIdxO (p : String → Bool) : List String → Option Nat
  | [] => none
  | l :: r =>
    match lastIdxO p r with
    | some i => some (i + 1)
    | none => if p l then some 0 else none

/-- The arduino one-shot convenience block. -/
def ardOneshotBlock : List String :=
  ["/**",
   " * Calculate the crc in one-shot.",
   " * Convenience helper exposed in the global namespace.",
   " *",
   " * \\param[in] data     Pointer to a buffer of \\a data_len bytes.",
   " * \\param[in] data_len Number of bytes in the \\a data buffer.",
   " */",
   "inline crc_t crc_calculate(const void *data, size_t data_len) \x7b",
   "  crc_t crc = crc_init();",
   "  crc = crc_update(crc, data, data_len);",
   "  return crc_finalize(crc);",
   "\x7d"]

/-- Arduino step: insert the one-shot block before the last
    `#ifdef __cplusplus`, or append at the end of file. -/
def ardOneshotInsert (ls : List String) : List String :=
  match lastIdxO cppIfdefTest ls with
  | some i => ls.take i ++ ardOneshotBlock ++ ls.drop i
  | none => ls ++ ardOneshotBlock

/-- Arduino step: `typedef uint_fast` → `typedef uint` on EVERY line that
    contains it (the loop has no `break` and the `replace` no count). -/
def renameTypeAliasAll (ls : List String) : List String :=
  ls.map fun l =>
    if strContains l "typedef uint_fast" then
      pyReplace l "typedef uint_fast" "typedef uint"
    else l

/-- `convert_header` of generate_crc8_arduino.py, from the pycrc header
    lines to the emitted `.hpp` lines; `hstem` is the input file's stem and
    `fileroot` the output root (equal at the call site). -/
def convert_header (hstem fileroot ts : String) (lines : List String) :
    List String :=
  (renameTypeAliasAll
    (ardOneshotInsert
      (stripStatics
        (ardFixAlgoDefine
          (ardFixCppOpen
            (guardReplaceAll (pyUpper hstem ++ "_H") (pyUpper fileroot ++ "_HPP")
              (insert_auto_comment ts lines))))))).map (wreplace fileroot)

/-- Split a character list at every occurrence of `sep`
    (Python `str.split(sep)` with an explicit one-character separator). -/
def splitSepAux (sep : Char) (acc : List Char) : List Char → List String
  | [] => [⟨acc.reverse⟩]
  | c :: cs =>
    if c = sep then (⟨acc.reverse⟩ : String) :: splitSepAux sep [] cs
    else splitSepAux sep (c :: acc) cs

def pySplitSep (sep : Char) (s : String) : List String :=
  splitSepAux sep [] s.data

/-- `convert_source` of generate_crc8_arduino.py; `toggle` is
    `CONVERT_TO_PROGMEM`. -/
def convert_source (fileroot pgm : String) (toggle : Bool) (ts : String)
    (lines : List String) : List String :=
  let ls1 := insert_auto_comment ts lines
  let ls2 := replaceFirstLine
    (fun l => strContains l ("#include \"" ++ fileroot ++ ".h\""))
    (fun _ => "#include \"" ++ fileroot ++ ".hpp\" // header file converted by generator")
    ls1
  let algotag := (pySplitSep '_' fileroot).getD 1 ""
  let loopVar := if algotag = "bit" then "i" else "tbl_idx"
  let useP := toggle && (algotag = "nibble" || algotag = "byte")
  let ls3 :=
    if useP then
      match findIdxO (fun l => pyStartswith l "#include") ls2 with
      | some i => ls2.take i ++ pgmBlock ++ ls2.drop i
      | none => ls2
    else ls2
  let ls4 := narrowLoopVar loopVar ls3
  let ls5 :=
    if useP then
      tableIdxRewrite pgm
        (replaceFirstLine (fun l => strContains l "crc_table" && strContains l "= \x7b")
          (fun l => pyReplace l "= \x7b" "PROGMEM = \x7b") ls4)
    else ls4
  ls5.map (wreplace fileroot)

end Crumbs

namespace Crumbs

/-! ## Structural lemmas about the line-scanning primitives. -/

theorem findIdxO_eq_none (p : String → Bool) (ls : List String)
    (h : ∀ l ∈ ls, p l = false) : findIdxO p ls = none := by
  induction ls with
  | nil => rfl
  | cons a r ih =>
    have ha := h a (List.mem_cons_self a r)
    simp only [findIdxO, ha, Bool.false_eq_true, if_false]
    rw [ih fun l hl => h l (List.mem_cons_of_mem a hl)]
    rfl

theorem mem_insert_before_first_match (p : String → Bool) (newLines ls : List String)
    (x : String) (hx : x ∈ insert_before_first_match p newLines ls) :
    x ∈ ls ∨ x ∈ newLines := by
  unfold insert_before_first_match at hx
  cases hfi : findIdxO p ls with
  | some i =>
    rw [hfi] at hx
    rcases List.mem_append.mp hx with hx | hx
    · rcases List.mem_append.mp hx with hx | hx
      · exact Or.inl (List.take_subset i ls hx)
      · exact Or.inr hx
    · exact Or.inl (List.drop_subset i ls hx)
  | none =>
    rw [hfi] at hx
    rcases List.mem_append.mp hx with hx | hx
    · exact Or.inl hx
    · exact Or.inr hx

theorem mem_replaceFirstLine (p : String → Bool) (f : String → String)
    (ls : List String) (x : String) (hx : x ∈ replaceFirstLine p f ls) :
    x ∈ ls ∨ ∃ l, l ∈ ls ∧ p l = true ∧ x = f l := by
  induction ls with
  | nil => simp [replaceFirstLine] at hx
  | cons a r ih =>
    by_cases ha : p a
    · simp only [replaceFirstLine, ha, if_true] at hx
      rcases List.mem_cons.mp hx with hx | hx
      · exact Or.inr ⟨a, List.mem_cons_self a r, ha, hx⟩
      · exact Or.inl (List.mem_cons_of_mem a hx)
    · simp only [replaceFirstLine, ha, if_false] at hx
      rcases List.mem_cons.mp hx with hx | hx
      · exact Or.inl (hx ▸ List.mem_cons_self a r)
      · rcases ih hx with hx | ⟨l, hl, hpl, hxf⟩
        · exact Or.inl (List.mem_cons_of_mem a hx)
        · exact Or.inr ⟨l, List.mem_cons_of_mem a hl, hpl, hxf⟩

theorem replaceFirstLine_eq_of_none (p : String → Bool) (f : String → String)
    (ls : List String) (h : ∀ l ∈ ls, p l = false) :
    replaceFirstLine p f ls = ls := by
  induction ls with
  | nil => rfl
  | cons a r ih =>
    have ha := h a (List.mem_cons_self a r)
    simp only [replaceFirstLine, ha, Bool.false_eq_true, if_false, List.cons.injEq, true_and]
    exact ih fun l hl => h l (List.mem_cons_of_mem a hl)

theorem replaceFirstLine_exists_decomp (p : String → Bool) (f : String → String)
    (X : List String) (y : String) (Y : List String) (hy : p y = false) :
    ∃ X1 Y1, replaceFirstLine p f (X ++ y :: Y) = X1 ++ y :: Y1 := by
  induction X with
  | nil =>
    exact ⟨[], replaceFirstLine p f Y, by simp [replaceFirstLine, hy]⟩
  | cons a r ih =>
    by_cases ha : p a
    · exact ⟨f a :: r, Y, by simp [replaceFirstLine, ha]⟩
    · rcases ih with ⟨X1, Y1, hXY⟩
      exact ⟨a :: X1, Y1, by simp [replaceFirstLine, ha, hXY]⟩

theorem insert_before_first_match_decomp (p : String → Bool)
    (newLines X : List String) (y : String) (Y : List String) :
    ∃ X1 Y1, insert_before_first_match p newLines (X ++ y :: Y) = X1 ++ y :: Y1
      ∧ (∀ x ∈ X1, x ∈ X ∨ x ∈ newLines)
      ∧ (∀ x ∈ Y1, x ∈ Y ∨ x ∈ newLines) := by
  rcases hfi : findIdxO p (X ++ y :: Y) with _ | i
  · refine ⟨X, Y ++ newLines, ?_, fun x hx => Or.inl hx, ?_⟩
    · simp [insert_before_first_match, hfi]
    · intro x hx
      exact (List.mem_append.mp hx).elim Or.inl Or.inr
  · by_cases hi : i ≤ X.length
    · refine ⟨X.take i ++ newLines ++ X.drop i, Y, ?_, ?_, fun x hx => Or.inl hx⟩
      · simp only [insert_before_first_match, hfi]
        rw [List.take_append_eq_append_take, List.drop_append_eq_append_drop]
        have h1 : i - X.length = 0 := Nat.sub_eq_zero_of_le hi
        simp [h1]
      · intro x hx
        rcases List.mem_append.mp hx with hx | hx
        · rcases List.mem_append.mp hx with hx | hx
          · exact Or.inl (List.take_subset i X hx)
          · exact Or.inr hx
        · exact Or.inl (List.drop_subset i X hx)
    · obtain ⟨k, hk⟩ : ∃ k, i - X.length = k + 1 := ⟨i - X.length - 1, by omega⟩
      refine ⟨X, Y.take k ++ newLines ++ Y.drop k, ?_, fun x hx => Or.inl hx, ?_⟩
      · simp only [insert_before_first_match, hfi]
        rw [List.take_append_eq_append_take, List.drop_append_eq_append_drop]
        have h1 : X.take i = X := List.take_of_length_le (by omega)
        have h2 : X.drop i = [] := List.drop_eq_nil_of_le (by omega)
        simp [h1, h2, hk, List.take_succ_cons, List.drop_succ_cons]
      · intro x hx
        rcases List.mem_append.mp hx with hx | hx
        · rcases List.mem_append.mp hx with hx | hx
          · exact Or.inl (List.take_subset k Y hx)
          · exact Or.inr hx
        · exact Or.inl (List.drop_subset k Y hx)

end Crumbs

namespace Crumbs

/-! ## Character-level facts about stripped lines. -/

theorem lstripL_cons_of_not_space (c : Char) (cs : List Char)
    (h : isPySpace c = false) : lstripL (c :: cs) = c :: cs := by
  simp [lstripL, List.dropWhile_cons, h]

theorem lstripL_cons_of_space (c : Char) (cs : List Char)
    (h : isPySpace c = true) : lstripL (c :: cs) = lstripL cs := by
  simp [lstripL, List.dropWhile_cons, h]

theorem rstripL_cons_of_not_space (c : Char) (cs : List Char)
    (h : isPySpace c = false) : rstripL (c :: cs) = c :: rstripL cs := by
  unfold rstripL
  rw [List.reverse_cons, List.dropWhile_append]
  by_cases he : (cs.reverse.dropWhile isPySpace).isEmpty
  · simp only [he, if_true]
    have : cs.reverse.dropWhile isPySpace = [] := by
      cases hx : cs.reverse.dropWhile isPySpace with
      | nil => rfl
      | cons a b => rw [hx] at he; simp at he
    simp [List.dropWhile_cons, h, this]
  · simp only [he, if_false]
    simp

theorem pyStartswith_false_of_head (s p : String) (c d : Char) (cs ds : List Char)
    (hs : s.data = c :: cs) (hp : p.data = d :: ds) (hne : (c == d) = false) :
    pyStartswith s p = false := by
  unfold pyStartswith
  rw [hs, hp]
  simp only [List.isPrefixOf]
  rw [BEq.comm] at hne
  simp [hne]

theorem pyStrip_data_cons (c : Char) (t : List Char) (h : isPySpace c = false) :
    (pyStrip ⟨c :: t⟩).data = c :: rstripL t := by
  show rstripL (lstripL (c :: t)) = c :: rstripL t
  rw [lstripL_cons_of_not_space c t h, rstripL_cons_of_not_space c t h]

/-- The line inserted for the algorithm constant. -/
def staticConstLine (n v : String) : String :=
  "static const uint8_t " ++ n ++ " = " ++ v ++ ";"

theorem staticConstLine_data (n v : String) :
    (staticConstLine n v).data
      = 's' :: ("tatic const uint8_t ".data ++ n.data ++ " = ".data ++ v.data ++ ";".data) := by
  show ("static const uint8_t " ++ n ++ " = " ++ v ++ ";").data = _
  simp [String.data_append]

theorem cppIfdefTest_staticConstLine (n v : String) :
    cppIfdefTest (staticConstLine n v) = false := by
  unfold cppIfdefTest
  have hd := staticConstLine_data n v
  have hs : (pyStrip (staticConstLine n v)).data = 's' :: rstripL
      ("tatic const uint8_t ".data ++ n.data ++ " = ".data ++ v.data ++ ";".data) := by
    have hmk : staticConstLine n v
        = ⟨'s' :: ("tatic const uint8_t ".data ++ n.data ++ " = ".data ++ v.data ++ ";".data)⟩ :=
      String.ext hd
    rw [hmk]
    exact pyStrip_data_cons _ _ (by decide)
  exact pyStartswith_false_of_head _ _ 's' '#' _ _ hs rfl (by decide)

end Crumbs

namespace Crumbs

/-! ## C1: behavior of the header conversion when the structural anchors
    are missing. -/

/-- C1 counterexample: a header that has neither the `#ifndef` guard line
    nor any `#ifdef __cplusplus` block is converted anyway —
    `convert_h_to_hpp` completes, produces the full output below (which
    would then be written to the `.hpp` file), raises no error, and the new
    guard appears nowhere in the output (the guard rewrites were silently
    skipped), contradicting the claimed fail-loud abort. -/
theorem c1_counterexample :
    convert_h_to_hpp "crc8" "nibble" "CRC8_NIBBLE_H" "ACE_CRC_CRC8_NIBBLE_HPP" "T"
        ["/**", " * c file", " */", "#define CRC_ALGO_TABLE_DRIVEN 1",
         "static crc_t crc_init(void);"]
      = ["/**", " * c file", " * Auto converted to Arduino C++ on T",
         " * by AceCRC (https://github.com/bxparks/AceCRC).", " * DO NOT EDIT", " */",
         "const uint8_t CRC_ALGO_TABLE_DRIVEN = 1;", "crc_t crc_init(void);"]
    ∧ (∀ l ∈ ["/**", " * c file", " */", "#define CRC_ALGO_TABLE_DRIVEN 1",
         "static crc_t crc_init(void);"],
        strContains l "#ifndef CRC8_NIBBLE_H" = false ∧ cppIfdefTest l = false)
    ∧ (∀ l ∈ ["/**", " * c file", " * Auto converted to Arduino C++ on T",
         " * by AceCRC (https://github.com/bxparks/AceCRC).", " * DO NOT EDIT", " */",
         "const uint8_t CRC_ALGO_TABLE_DRIVEN = 1;", "crc_t crc_init(void);"],
        strContains l "ACE_CRC_CRC8_NIBBLE_HPP" = false) := by
  refine ⟨by decide, by decide, by decide⟩

/-- C1 as amended: when the `#ifndef` guard anchor and the
    `#ifdef __cplusplus` anchors are absent, the operations that depend on
    them are silent no-ops — the conversion still runs to completion and
    emits output equal to the pipeline with the guard-pair rewrite and both
    conditional-block rewrites removed (so the original guards, if any, are
    left untouched); no error is raised. -/
theorem c1_missing_anchors_silently_skipped
    (modelroot algotag oldG newG ts : String) (lines : List String)
    (hG : ∀ l ∈ lines ++ autogen_comment_lines ts,
      strContains l ("#ifndef " ++ oldG) = false)
    (hC : ∀ l ∈ lines ++ autogen_comment_lines ts, cppIfdefTest l = false) :
    convert_h_to_hpp modelroot algotag oldG newG ts lines
      = fixTypedefFirst
          (stripStatics
            (fixEndifGuard oldG newG
              (fixAlgoDefine
                (insert_before_first_match (fun l => strContains l " */")
                  (autogen_comment_lines ts) lines)))) := by
  have hmem : ∀ x ∈ insert_before_first_match (fun l => strContains l " */")
      (autogen_comment_lines ts) lines, x ∈ lines ∨ x ∈ autogen_comment_lines ts :=
    fun x hx => mem_insert_before_first_match _ _ _ x hx
  have hG1 : ∀ x ∈ insert_before_first_match (fun l => strContains l " */")
      (autogen_comment_lines ts) lines, strContains x ("#ifndef " ++ oldG) = false := by
    intro x hx
    rcases hmem x hx with h | h
    · exact hG x (List.mem_append_left _ h)
    · exact hG x (List.mem_append_right _ h)
  have hC1 : ∀ x ∈ insert_before_first_match (fun l => strContains l " */")
      (autogen_comment_lines ts) lines, cppIfdefTest x = false := by
    intro x hx
    rcases hmem x hx with h | h
    · exact hC x (List.mem_append_left _ h)
    · exact hC x (List.mem_append_right _ h)
  have e2 : fixGuardPair oldG newG (insert_before_first_match
      (fun l => strContains l " */") (autogen_comment_lines ts) lines)
      = insert_before_first_match (fun l => strContains l " */")
          (autogen_comment_lines ts) lines := by
    unfold fixGuardPair
    rw [findIdxO_eq_none _ _ hG1]
  have e3 : fixFirstCppBlock (modelroot ++ "_" ++ algotag)
      (insert_before_first_match (fun l => strContains l " */")
        (autogen_comment_lines ts) lines)
      = insert_before_first_match (fun l => strContains l " */")
          (autogen_comment_lines ts) lines := by
    unfold fixFirstCppBlock
    rw [findIdxO_eq_none _ _ hC1]
  have hC2 : ∀ x ∈ fixAlgoDefine (insert_before_first_match
      (fun l => strContains l " */") (autogen_comment_lines ts) lines),
      cppIfdefTest x = false := by
    intro x hx
    rcases mem_replaceFirstLine _ _ _ x hx with hx | ⟨l, hl, _, hxl⟩
    · exact hC1 x hx
    · subst hxl
      unfold algoDefRewrite
      rcases hsp : pySplit l with _ | ⟨p0, _ | ⟨n, _ | ⟨v, rest⟩⟩⟩
      · exact hC1 l hl
      · exact hC1 l hl
      · exact hC1 l hl
      · exact cppIfdefTest_staticConstLine n v
  have e5 : fixSecondCppBlock (modelroot ++ "_" ++ algotag)
      (fixAlgoDefine (insert_before_first_match (fun l => strContains l " */")
        (autogen_comment_lines ts) lines))
      = fixAlgoDefine (insert_before_first_match (fun l => strContains l " */")
          (autogen_comment_lines ts) lines) := by
    unfold fixSecondCppBlock
    rw [findIdxO_eq_none _ _ hC2]
  unfold convert_h_to_hpp
  rw [e2, e3, e5]

/-- Witness for C1's amended theorem at a concrete anchor-free header. -/
theorem c1_witness :
    (∀ l ∈ ["/**", " */", "#define CRC_ALGO_TABLE_DRIVEN 1"]
        ++ autogen_comment_lines "T",
      strContains l ("#ifndef " ++ "CRC8_NIBBLE_H") = false)
    ∧ (∀ l ∈ ["/**", " */", "#define CRC_ALGO_TABLE_DRIVEN 1"]
        ++ autogen_comment_lines "T", cppIfdefTest l = false)
    ∧ convert_h_to_hpp "crc8" "nibble" "CRC8_NIBBLE_H" "ACE_CRC_CRC8_NIBBLE_HPP" "T"
        ["/**", " */", "#define CRC_ALGO_TABLE_DRIVEN 1"]
      = fixTypedefFirst
          (stripStatics
            (fixEndifGuard "CRC8_NIBBLE_H" "ACE_CRC_CRC8_NIBBLE_HPP"
              (fixAlgoDefine
                (insert_before_first_match (fun l => strContains l " */")
                  (autogen_comment_lines "T")
                  ["/**", " */", "#define CRC_ALGO_TABLE_DRIVEN 1"])))) := by
  refine ⟨by decide, by decide, ?_⟩
  exact c1_missing_anchors_silently_skipped "crc8" "nibble" "CRC8_NIBBLE_H"
    "ACE_CRC_CRC8_NIBBLE_HPP" "T" ["/**", " */", "#define CRC_ALGO_TABLE_DRIVEN 1"]
    (by decide) (by decide)

end Crumbs

namespace Crumbs

/-! ## C8: the `typedef uint_fast` renaming. -/

/-- C8 counterexample: on a header whose alias declaration occurs twice,
    the Arduino converter (`convert_header` of generate_crc8_arduino.py,
    whose renaming loop has no `break`) rewrites the SECOND occurrence too:
    the emitted header contains `typedef uint16_t b;` and no longer
    contains `typedef uint_fast16_t b;`, contradicting "no other occurrence
    is modified". -/
theorem c8_counterexample :
    "typedef uint16_t b;" ∈ convert_header "crc8_nibble" "crc8_nibble" "T"
        ["typedef uint_fast8_t a;", "typedef uint_fast16_t b;"]
    ∧ "typedef uint_fast16_t b;" ∉ convert_header "crc8_nibble" "crc8_nibble" "T"
        ["typedef uint_fast8_t a;", "typedef uint_fast16_t b;"]
    ∧ (convert_header "crc8_nibble" "crc8_nibble" "T"
        ["typedef uint_fast8_t a;", "typedef uint_fast16_t b;"]).take 2
      = ["typedef uint8_t a;", "typedef uint16_t b;"] := by
  refine ⟨by decide, by decide, by decide⟩

/-- C8 as amended: the two converters disagree on which occurrences are
    renamed.  The AceCRC header conversion stage (`fixTypedefFirst`, step 8
    of `convert_h_to_hpp`) rewrites exactly the first occurrence — first
    matching line, `count=1` within it — leaving all other lines unchanged;
    the Arduino stage (`renameTypeAliasAll` in `convert_header`) rewrites
    every occurrence on every line containing the alias.  They agree on
    headers where the alias occurs at most once, as in pycrc output. -/
theorem c8_first_occurrence_vs_all (pre : List String) (l : String)
    (post : List String)
    (hpre : ∀ x ∈ pre, strContains x "typedef uint_fast" = false)
    (hl : strContains l "typedef uint_fast" = true) :
    fixTypedefFirst (pre ++ l :: post)
      = pre ++ pyReplace1 l "typedef uint_fast" "typedef uint" :: post
    ∧ renameTypeAliasAll (pre ++ l :: post)
      = pre.map (fun x => if strContains x "typedef uint_fast" then
            pyReplace x "typedef uint_fast" "typedef uint" else x)
        ++ pyReplace l "typedef uint_fast" "typedef uint"
          :: post.map (fun x => if strContains x "typedef uint_fast" then
            pyReplace x "typedef uint_fast" "typedef uint" else x) := by
  constructor
  · exact replaceFirstLine_decomp _ _ pre l post hpre hl
  · unfold renameTypeAliasAll
    rw [List.map_append, List.map_cons]
    rw [if_pos hl]

/-- Witness for C8's amended theorem on a concrete two-occurrence header. -/
theorem c8_witness :
    (∀ x ∈ ["/* h */"], strContains x "typedef uint_fast" = false)
    ∧ strContains "typedef uint_fast8_t a;" "typedef uint_fast" = true
    ∧ fixTypedefFirst ["/* h */", "typedef uint_fast8_t a;", "typedef uint_fast16_t b;"]
      = ["/* h */", pyReplace1 "typedef uint_fast8_t a;" "typedef uint_fast" "typedef uint",
         "typedef uint_fast16_t b;"]
    ∧ renameTypeAliasAll ["/* h */", "typedef uint_fast8_t a;", "typedef uint_fast16_t b;"]
      = ["/* h */"].map (fun x => if strContains x "typedef uint_fast" then
            pyReplace x "typedef uint_fast" "typedef uint" else x)
        ++ pyReplace "typedef uint_fast8_t a;" "typedef uint_fast" "typedef uint"
          :: ["typedef uint_fast16_t b;"].map (fun x => if strContains x "typedef uint_fast" then
            pyReplace x "typedef uint_fast" "typedef uint" else x) := by
  refine ⟨by decide, by decide, ?_, ?_⟩
  · exact (c8_first_occurrence_vs_all ["/* h */"] "typedef uint_fast8_t a;"
      ["typedef uint_fast16_t b;"] (by decide) (by decide)).1
  · exact (c8_first_occurrence_vs_all ["/* h */"] "typedef uint_fast8_t a;"
      ["typedef uint_fast16_t b;"] (by decide) (by decide)).2

end Crumbs

namespace Crumbs

/-! ## C10: the inserted algorithm constant is `static`-stripped by the
    later pass. -/

theorem isPrefixOf_append_self (a b : List Char) : a.isPrefixOf (a ++ b) = true := by
  induction a with
  | nil => simp [List.isPrefixOf]
  | cons x xs ih => simp [List.isPrefixOf, ih]

/-- The final form of the algorithm constant after the strip-`static`
    pass. -/
def constLine (n v : String) : String :=
  "const uint8_t " ++ n ++ " = " ++ v ++ ";"

theorem staticConstLine_data_split (n v : String) :
    (staticConstLine n v).data
      = "static ".data ++ ("const uint8_t ".data ++ (n.data ++ (" = ".data ++ (v.data ++ ";".data)))) := by
  show ("static const uint8_t " ++ n ++ " = " ++ v ++ ";").data = _
  have hlit : "static const uint8_t ".data = "static ".data ++ "const uint8_t ".data := rfl
  simp [String.data_append, hlit]

theorem stripStaticLine_staticConstLine (n v : String) :
    stripStaticLine (staticConstLine n v) = constLine n v := by
  have hd := staticConstLine_data_split n v
  have hhead : (staticConstLine n v).data
      = 's' :: ("tatic ".data ++ ("const uint8_t ".data ++ (n.data ++ (" = ".data ++ (v.data ++ ";".data))))) := by
    rw [hd]; rfl
  have hls : lstripL (staticConstLine n v).data = (staticConstLine n v).data := by
    rw [hhead]
    exact lstripL_cons_of_not_space _ _ (by decide)
  have hsw : pyStartswith (pyLstrip (staticConstLine n v)) "static " = true := by
    show ("static ".data).isPrefixOf (lstripL (staticConstLine n v).data) = true
    rw [hls, hd]
    exact isPrefixOf_append_self _ _
  unfold stripStaticLine
  rw [if_pos hsw]
  have htw : (staticConstLine n v).data.takeWhile isPySpace = [] := by
    rw [hhead]
    simp [List.takeWhile_cons, isPySpace]
  have hdr : (lstripL (staticConstLine n v).data).drop 7
      = "const uint8_t ".data ++ (n.data ++ (" = ".data ++ (v.data ++ ";".data))) := by
    rw [hls, hd]
    have h7 : ("static ".data).length = 7 := rfl
    rw [← h7, List.drop_left]
  apply String.ext
  show (staticConstLine n v).data.takeWhile isPySpace
      ++ (lstripL (staticConstLine n v).data).drop 7 = (constLine n v).data
  rw [htw, hdr]
  show _ = ("const uint8_t " ++ n ++ " = " ++ v ++ ";").data
  simp [String.data_append]

theorem findIdxO_first (p : String → Bool) (A : List String) (x : String)
    (B : List String) (hA : ∀ l ∈ A, p l = false) (hx : p x = true) :
    findIdxO p (A ++ x :: B) = some A.length := by
  induction A with
  | nil => simp [findIdxO, hx]
  | cons a t ih =>
    have ha := hA a (List.mem_cons_self a t)
    show (if p a then some 0 else (findIdxO p (t ++ x :: B)).map (· + 1))
        = some (a :: t).length
    rw [ha, ih fun l hl => hA l (List.mem_cons_of_mem a hl)]
    rfl

theorem take_len_append (A R : List String) : (A ++ R).take A.length = A := by
  induction A with
  | nil => rfl
  | cons a t ih =>
    show a :: (t ++ R).take t.length = a :: t
    rw [ih]

theorem drop_len_append (A R : List String) : (A ++ R).drop A.length = R := by
  induction A with
  | nil => rfl
  | cons a t ih => exact ih

theorem drop_len_append3 (A : List String) (x y z : String) (B : List String) :
    (A ++ x :: y :: z :: B).drop (A.length + 3) = B := by
  induction A with
  | nil => rfl
  | cons a t ih => exact ih

theorem getD_len_append (A : List String) (g : String) (R : List String)
    (d : String) : (A ++ g :: R).getD A.length d = g := by
  induction A with
  | nil => rfl
  | cons a t ih => exact ih

theorem getD_len_append_succ (A : List String) (g1 g2 : String) (R : List String)
    (d : String) : (A ++ g1 :: g2 :: R).getD (A.length + 1) d = g2 := by
  induction A with
  | nil => rfl
  | cons a t ih => exact ih

theorem double_set_append (A : List String) (g1 g2 x y : String) (B : List String) :
    ((A ++ g1 :: g2 :: B).set A.length x).set (A.length + 1) y = A ++ x :: y :: B := by
  induction A with
  | nil => rfl
  | cons a t ih =>
    show a :: ((t ++ g1 :: g2 :: B).set t.length x).set (t.length + 1) y
        = a :: (t ++ x :: y :: B)
    rw [ih]

theorem insert_before_first_match_exact (p : String → Bool) (newLines : List String)
    (A : List String) (x : String) (B : List String)
    (hA : ∀ l ∈ A, p l = false) (hx : p x = true) :
    insert_before_first_match p newLines (A ++ x :: B) = A ++ (newLines ++ x :: B) := by
  unfold insert_before_first_match
  rw [findIdxO_first p A x B hA hx]
  show (A ++ x :: B).take A.length ++ newLines ++ (A ++ x :: B).drop A.length
      = A ++ (newLines ++ x :: B)
  rw [take_len_append, drop_len_append, List.append_assoc]

theorem fixGuardPair_decomp (oldG newG : String) (A : List String) (g1 g2 : String)
    (B : List String)
    (hA : ∀ l ∈ A, strContains l ("#ifndef " ++ oldG) = false)
    (hg : strContains g1 ("#ifndef " ++ oldG) = true) :
    fixGuardPair oldG newG (A ++ g1 :: g2 :: B)
      = A ++ pyReplace g1 oldG newG :: pyReplace g2 oldG newG :: B := by
  unfold fixGuardPair
  rw [findIdxO_first _ A g1 (g2 :: B) hA hg]
  show (if A.length + 1 < (A ++ g1 :: g2 :: B).length then
      ((A ++ g1 :: g2 :: B).set A.length
          (pyReplace ((A ++ g1 :: g2 :: B).getD A.length "") oldG newG)).set (A.length + 1)
        (pyReplace ((A ++ g1 :: g2 :: B).getD (A.length + 1) "") oldG newG)
    else A ++ g1 :: g2 :: B)
    = A ++ pyReplace g1 oldG newG :: pyReplace g2 oldG newG :: B
  have hlen : A.length + 1 < (A ++ g1 :: g2 :: B).length := by
    rw [List.length_append]
    simp only [List.length_cons]
    omega
  rw [if_pos hlen, getD_len_append A g1 (g2 :: B) "", getD_len_append_succ A g1 g2 B ""]
  exact double_set_append A g1 g2 _ _ B

theorem fixFirstCppBlock_decomp (fr : String) (A : List String) (c1 c2 c3 : String)
    (B : List String) (hA : ∀ l ∈ A, cppIfdefTest l = false)
    (hc : cppIfdefTest c1 = true) :
    fixFirstCppBlock fr (A ++ c1 :: c2 :: c3 :: B) = A ++ (nsOpenBlock fr ++ B) := by
  unfold fixFirstCppBlock
  rw [findIdxO_first cppIfdefTest A c1 (c2 :: c3 :: B) hA hc]
  show replace_range_with (A ++ c1 :: c2 :: c3 :: B) A.length 3 (nsOpenBlock fr)
      = A ++ (nsOpenBlock fr ++ B)
  unfold replace_range_with
  rw [take_len_append, drop_len_append3, List.append_assoc]

theorem fixSecondCppBlock_decomp (fr : String) (A : List String) (c1 c2 c3 : String)
    (B : List String) (hA : ∀ l ∈ A, cppIfdefTest l = false)
    (hc : cppIfdefTest c1 = true) :
    fixSecondCppBlock fr (A ++ c1 :: c2 :: c3 :: B) = A ++ (oneshotBlock fr ++ B) := by
  unfold fixSecondCppBlock
  rw [findIdxO_first cppIfdefTest A c1 (c2 :: c3 :: B) hA hc]
  show replace_range_with (A ++ c1 :: c2 :: c3 :: B) A.length 3 (oneshotBlock fr)
      = A ++ (oneshotBlock fr ++ B)
  unfold replace_range_with
  rw [take_len_append, drop_len_append3, List.append_assoc]

/-- Ordinary pycrc header text lines trigger none of the four anchored
    searches of the header conversion: no `#ifndef <guard>` text, not a
    conditional-block marker, not a `#define CRC_ALGO` line, not the
    guard `#endif` line. -/
def StdLine (oldG l : String) : Bool :=
  !strContains l ("#ifndef " ++ oldG) && !cppIfdefTest l && !algoDefTest l
    && !(strContains l "#endif" && strContains l oldG)

theorem StdLine_spec (oldG l : String) (h : StdLine oldG l = true) :
    strContains l ("#ifndef " ++ oldG) = false ∧ cppIfdefTest l = false
      ∧ algoDefTest l = false
      ∧ (strContains l "#endif" && strContains l oldG) = false := by
  unfold StdLine at h
  refine ⟨?_, ?_, ?_, ?_⟩
  · cases hx : strContains l ("#ifndef " ++ oldG)
    · rfl
    · rw [hx] at h; simp at h
  · cases hx : cppIfdefTest l
    · rfl
    · rw [hx] at h; simp at h
  · cases hx : algoDefTest l
    · rfl
    · rw [hx] at h; simp at h
  · cases hx : (strContains l "#endif" && strContains l oldG)
    · rfl
    · rw [hx] at h; simp at h

theorem containsSub_prefix_cons (c : Char) (cs t : List Char) :
    containsSub (c :: cs) ((c :: cs) ++ t) = true := by
  show ((c :: cs).isPrefixOf ((c :: cs) ++ t) || containsSub (c :: cs) (cs ++ t)) = true
  rw [isPrefixOf_append_self]
  rfl

theorem containsSub_refl_cons (c : Char) (cs : List Char) :
    containsSub (c :: cs) (c :: cs) = true := by
  have h := containsSub_prefix_cons c cs []
  rwa [List.append_nil] at h

theorem strContains_ifndef_self (oldG : String) :
    strContains ("#ifndef " ++ oldG) ("#ifndef " ++ oldG) = true := by
  show containsSub ("#ifndef " ++ oldG).data ("#ifndef " ++ oldG).data = true
  have hd : ("#ifndef " ++ oldG).data = '#' :: ("ifndef ".data ++ oldG.data) := by
    rw [String.data_append]
    rfl
  rw [hd]
  exact containsSub_refl_cons _ _

theorem replaceOneAux_contains (o : Char) (os : List Char) (n : Char) (ns : List Char) :
    ∀ x : List Char, containsSub (o :: os) x = true →
      containsSub (n :: ns) (replaceOneAux (o :: os) (n :: ns) x) = true := by
  intro x
  induction x with
  | nil => intro hx; simp [containsSub] at hx
  | cons c cs ih =>
    intro hx
    by_cases hp : (o :: os).isPrefixOf (c :: cs) = true
    · have he : replaceOneAux (o :: os) (n :: ns) (c :: cs)
          = (n :: ns) ++ (c :: cs).drop (o :: os).length := by
        simp [replaceOneAux, hp]
      rw [he]
      exact containsSub_prefix_cons n ns _
    · have he : replaceOneAux (o :: os) (n :: ns) (c :: cs)
          = c :: replaceOneAux (o :: os) (n :: ns) cs := by
        simp [replaceOneAux, hp]
      rw [he]
      have hcs : containsSub (o :: os) cs = true := by
        have hx2 : ((o :: os).isPrefixOf (c :: cs) || containsSub (o :: os) cs) = true := hx
        rcases Bool.or_eq_true_iff.mp hx2 with h | h
        · exact absurd h hp
        · exact h
      show ((n :: ns).isPrefixOf (c :: replaceOneAux (o :: os) (n :: ns) cs)
          || containsSub (n :: ns) (replaceOneAux (o :: os) (n :: ns) cs)) = true
      rw [ih hcs]
      simp

theorem pyReplace1_typedef_contains (x : String)
    (h : strContains x "typedef uint_fast" = true) :
    strContains (pyReplace1 x "typedef uint_fast" "typedef uint") "typedef uint" = true := by
  have h1 : containsSub ('t' :: "ypedef uint_fast".data) x.data = true := h
  exact replaceOneAux_contains 't' "ypedef uint_fast".data 't' "ypedef uint".data x.data h1

theorem constLine_ne_staticConstLine (n v n2 v2 : String) :
    constLine n v ≠ staticConstLine n2 v2 := by
  intro h
  have hd := congrArg String.data h
  simp [constLine, staticConstLine, String.data_append] at hd

/-- C10: in `convert_h_to_hpp`, on any input of the pycrc header shape —
    a leading doc comment closed by a ` */` line, the `#ifndef`/`#define`
    guard pair, an `extern "C"` conditional block, the `#define CRC_ALGO...`
    line, a second conditional block and the final guard `#endif`, with
    arbitrary ordinary header text between the anchors — the algorithm
    define is first rewritten (step 4) into `static const uint8_t NAME =
    VALUE;`, and the later strip-`static` pass (step 7) strips exactly that
    freshly inserted qualifier: the emitted header carries the constant as
    `const uint8_t NAME = VALUE;` — external linkage — and no line of the
    emitted header is the `static`-qualified form of the constant. -/
theorem c10_algo_define_static_then_stripped
    (modelroot algotag oldG newG ts name value : String)
    (doc1 : List String) (docC : String) (doc2 m1 : List String)
    (c1b c1c : String) (m2 : List String) (defLine : String)
    (m3 : List String) (c2b c2c : String) (m4 : List String)
    (endifLine : String) (m5 : List String)
    (hdoc1 : ∀ l ∈ doc1, strContains l " */" = false ∧ StdLine oldG l = true
      ∧ stripStaticLine l ≠ staticConstLine name value)
    (hdocC : strContains docC " */" = true ∧ StdLine oldG docC = true
      ∧ stripStaticLine docC ≠ staticConstLine name value)
    (hmids : ∀ l ∈ doc2 ++ m1 ++ m2 ++ m3 ++ m4 ++ m5, StdLine oldG l = true
      ∧ stripStaticLine l ≠ staticConstLine name value)
    (hauto : ∀ l ∈ autogen_comment_lines ts, StdLine oldG l = true
      ∧ stripStaticLine l ≠ staticConstLine name value)
    (hg1 : StdLine oldG (pyReplace ("#ifndef " ++ oldG) oldG newG) = true
      ∧ stripStaticLine (pyReplace ("#ifndef " ++ oldG) oldG newG)
        ≠ staticConstLine name value)
    (hg2 : StdLine oldG (pyReplace ("#define " ++ oldG) oldG newG) = true
      ∧ stripStaticLine (pyReplace ("#define " ++ oldG) oldG newG)
        ≠ staticConstLine name value)
    (hns : ∀ l ∈ nsOpenBlock (modelroot ++ "_" ++ algotag), StdLine oldG l = true
      ∧ stripStaticLine l ≠ staticConstLine name value)
    (hone : ∀ l ∈ oneshotBlock (modelroot ++ "_" ++ algotag), StdLine oldG l = true
      ∧ stripStaticLine l ≠ staticConstLine name value)
    (hdef : algoDefTest defLine = true)
    (hsplit : ∃ p0 rest, pySplit defLine = p0 :: name :: value :: rest)
    (hendif : (strContains endifLine "#endif" && strContains endifLine oldG) = true)
    (hendif2 : stripStaticLine (pyReplace endifLine oldG newG)
      ≠ staticConstLine name value)
    (hSG : strContains (staticConstLine name value) oldG = false)
    (hTD : strContains (constLine name value) "typedef uint_fast" = false)
    (hTU : strContains (staticConstLine name value) "typedef uint" = false) :
    (∃ A B, convert_h_to_hpp modelroot algotag oldG newG ts
        (doc1 ++ docC :: (doc2 ++ ("#ifndef " ++ oldG) :: ("#define " ++ oldG)
          :: (m1 ++ "#ifdef __cplusplus" :: c1b :: c1c :: (m2 ++ defLine
            :: (m3 ++ "#ifdef __cplusplus" :: c2b :: c2c
              :: (m4 ++ endifLine :: m5))))))
      = A ++ constLine name value :: B)
    ∧ ∀ l ∈ convert_h_to_hpp modelroot algotag oldG newG ts
        (doc1 ++ docC :: (doc2 ++ ("#ifndef " ++ oldG) :: ("#define " ++ oldG)
          :: (m1 ++ "#ifdef __cplusplus" :: c1b :: c1c :: (m2 ++ defLine
            :: (m3 ++ "#ifdef __cplusplus" :: c2b :: c2c
              :: (m4 ++ endifLine :: m5)))))),
        l ≠ staticConstLine name value := by
  have hdoc2x : ∀ l ∈ doc2, StdLine oldG l = true
      ∧ stripStaticLine l ≠ staticConstLine name value :=
    fun l hl => hmids l (List.mem_append_left _ (List.mem_append_left _
      (List.mem_append_left _ (List.mem_append_left _ (List.mem_append_left _ hl)))))
  have hm1x : ∀ l ∈ m1, StdLine oldG l = true
      ∧ stripStaticLine l ≠ staticConstLine name value :=
    fun l hl => hmids l (List.mem_append_left _ (List.mem_append_left _
      (List.mem_append_left _ (List.mem_append_left _ (List.mem_append_right _ hl)))))
  have hm2x : ∀ l ∈ m2, StdLine oldG l = true
      ∧ stripStaticLine l ≠ staticConstLine name value :=
    fun l hl => hmids l (List.mem_append_left _ (List.mem_append_left _
      (List.mem_append_left _ (List.mem_append_right _ hl))))
  have hm3x : ∀ l ∈ m3, StdLine oldG l = true
      ∧ stripStaticLine l ≠ staticConstLine name value :=
    fun l hl => hmids l (List.mem_append_left _ (List.mem_append_left _
      (List.mem_append_right _ hl)))
  have hm4x : ∀ l ∈ m4, StdLine oldG l = true
      ∧ stripStaticLine l ≠ staticConstLine name value :=
    fun l hl => hmids l (List.mem_append_left _ (List.mem_append_right _ hl))
  have hm5x : ∀ l ∈ m5, StdLine oldG l = true
      ∧ stripStaticLine l ≠ staticConstLine name value :=
    fun l hl => hmids l (List.mem_append_right _ hl)
  have s1 : insert_before_first_match (fun l => strContains l " */")
      (autogen_comment_lines ts)
      (doc1 ++ docC :: (doc2 ++ ("#ifndef " ++ oldG) :: ("#define " ++ oldG)
        :: (m1 ++ "#ifdef __cplusplus" :: c1b :: c1c :: (m2 ++ defLine
          :: (m3 ++ "#ifdef __cplusplus" :: c2b :: c2c :: (m4 ++ endifLine :: m5))))))
      = doc1 ++ (autogen_comment_lines ts ++ docC :: (doc2
          ++ ("#ifndef " ++ oldG) :: ("#define " ++ oldG)
          :: (m1 ++ "#ifdef __cplusplus" :: c1b :: c1c :: (m2 ++ defLine
            :: (m3 ++ "#ifdef __cplusplus" :: c2b :: c2c :: (m4 ++ endifLine :: m5)))))) :=
    insert_before_first_match_exact _ _ doc1 docC _
      (fun l hl => (hdoc1 l hl).1) hdocC.1
  have p2 : ∀ x ∈ doc1 ++ (autogen_comment_lines ts ++ docC :: doc2),
      strContains x ("#ifndef " ++ oldG) = false := by
    intro x hx
    simp only [List.mem_append, List.mem_cons] at hx
    rcases hx with h | h | rfl | h
    · exact (StdLine_spec _ _ (hdoc1 x h).2.1).1
    · exact (StdLine_spec _ _ (hauto x h).1).1
    · exact (StdLine_spec _ _ hdocC.2.1).1
    · exact (StdLine_spec _ _ (hdoc2x x h).1).1
  have r2 : doc1 ++ (autogen_comment_lines ts ++ docC :: (doc2
        ++ ("#ifndef " ++ oldG) :: ("#define " ++ oldG)
        :: (m1 ++ "#ifdef __cplusplus" :: c1b :: c1c :: (m2 ++ defLine
          :: (m3 ++ "#ifdef __cplusplus" :: c2b :: c2c :: (m4 ++ endifLine :: m5))))))
      = (doc1 ++ (autogen_comment_lines ts ++ docC :: doc2))
        ++ ("#ifndef " ++ oldG) :: ("#define " ++ oldG)
        :: (m1 ++ "#ifdef __cplusplus" :: c1b :: c1c :: (m2 ++ defLine
          :: (m3 ++ "#ifdef __cplusplus" :: c2b :: c2c :: (m4 ++ endifLine :: m5)))) := by
    simp [List.append_assoc]
  have s2 : fixGuardPair oldG newG
      ((doc1 ++ (autogen_comment_lines ts ++ docC :: doc2))
        ++ ("#ifndef " ++ oldG) :: ("#define " ++ oldG)
        :: (m1 ++ "#ifdef __cplusplus" :: c1b :: c1c :: (m2 ++ defLine
          :: (m3 ++ "#ifdef __cplusplus" :: c2b :: c2c :: (m4 ++ endifLine :: m5)))))
      = (doc1 ++ (autogen_comment_lines ts ++ docC :: doc2))
        ++ pyReplace ("#ifndef " ++ oldG) oldG newG
        :: pyReplace ("#define " ++ oldG) oldG newG
        :: (m1 ++ "#ifdef __cplusplus" :: c1b :: c1c :: (m2 ++ defLine
          :: (m3 ++ "#ifdef __cplusplus" :: c2b :: c2c :: (m4 ++ endifLine :: m5)))) :=
    fixGuardPair_decomp oldG newG _ _ _ _ p2 (strContains_ifndef_self oldG)
  have p3 : ∀ x ∈ doc1 ++ (autogen_comment_lines ts ++ (docC :: (doc2
        ++ pyReplace ("#ifndef " ++ oldG) oldG newG
        :: pyReplace ("#define " ++ oldG) oldG newG :: m1))),
      cppIfdefTest x = false := by
    intro x hx
    simp only [List.mem_append, List.mem_cons] at hx
    rcases hx with h | h | rfl | h | rfl | rfl | h
    · exact (StdLine_spec _ _ (hdoc1 x h).2.1).2.1
    · exact (StdLine_spec _ _ (hauto x h).1).2.1
    · exact (StdLine_spec _ _ hdocC.2.1).2.1
    · exact (StdLine_spec _ _ (hdoc2x x h).1).2.1
    · exact (StdLine_spec _ _ hg1.1).2.1
    · exact (StdLine_spec _ _ hg2.1).2.1
    · exact (StdLine_spec _ _ (hm1x x h).1).2.1
  have r3 : (doc1 ++ (autogen_comment_lines ts ++ docC :: doc2))
        ++ pyReplace ("#ifndef " ++ oldG) oldG newG
        :: pyReplace ("#define " ++ oldG) oldG newG
        :: (m1 ++ "#ifdef __cplusplus" :: c1b :: c1c :: (m2 ++ defLine
          :: (m3 ++ "#ifdef __cplusplus" :: c2b :: c2c :: (m4 ++ endifLine :: m5))))
      = (doc1 ++ (autogen_comment_lines ts ++ (docC :: (doc2
          ++ pyReplace ("#ifndef " ++ oldG) oldG newG
          :: pyReplace ("#define " ++ oldG) oldG newG :: m1))))
        ++ "#ifdef __cplusplus" :: c1b :: c1c
        :: (m2 ++ defLine :: (m3 ++ "#ifdef __cplusplus" :: c2b :: c2c
          :: (m4 ++ endifLine :: m5))) := by
    simp [List.append_assoc]
  have s3 : fixFirstCppBlock (modelroot ++ "_" ++ algotag)
      ((doc1 ++ (autogen_comment_lines ts ++ (docC :: (doc2
          ++ pyReplace ("#ifndef " ++ oldG) oldG newG
          :: pyReplace ("#define " ++ oldG) oldG newG :: m1))))
        ++ "#ifdef __cplusplus" :: c1b :: c1c
        :: (m2 ++ defLine :: (m3 ++ "#ifdef __cplusplus" :: c2b :: c2c
          :: (m4 ++ endifLine :: m5))))
      = (doc1 ++ (autogen_comment_lines ts ++ (docC :: (doc2
          ++ pyReplace ("#ifndef " ++ oldG) oldG newG
          :: pyReplace ("#define " ++ oldG) oldG newG :: m1))))
        ++ (nsOpenBlock (modelroot ++ "_" ++ algotag)
          ++ (m2 ++ defLine :: (m3 ++ "#ifdef __cplusplus" :: c2b :: c2c
            :: (m4 ++ endifLine :: m5)))) :=
    fixFirstCppBlock_decomp _ _ _ _ _ _ p3 (by decide)
  have p4 : ∀ x ∈ doc1 ++ (autogen_comment_lines ts ++ (docC :: (doc2
        ++ pyReplace ("#ifndef " ++ oldG) oldG newG
        :: pyReplace ("#define " ++ oldG) oldG newG
        :: (m1 ++ (nsOpenBlock (modelroot ++ "_" ++ algotag) ++ m2))))),
      algoDefTest x = false := by
    intro x hx
    simp only [List.mem_append, List.mem_cons] at hx
    rcases hx with h | h | rfl | h | rfl | rfl | h | h | h
    · exact (StdLine_spec _ _ (hdoc1 x h).2.1).2.2.1
    · exact (StdLine_spec _ _ (hauto x h).1).2.2.1
    · exact (StdLine_spec _ _ hdocC.2.1).2.2.1
    · exact (StdLine_spec _ _ (hdoc2x x h).1).2.2.1
    · exact (StdLine_spec _ _ hg1.1).2.2.1
    · exact (StdLine_spec _ _ hg2.1).2.2.1
    · exact (StdLine_spec _ _ (hm1x x h).1).2.2.1
    · exact (StdLine_spec _ _ (hns x h).1).2.2.1
    · exact (StdLine_spec _ _ (hm2x x h).1).2.2.1
  have r4 : (doc1 ++ (autogen_comment_lines ts ++ (docC :: (doc2
          ++ pyReplace ("#ifndef " ++ oldG) oldG newG
          :: pyReplace ("#define " ++ oldG) oldG newG :: m1))))
        ++ (nsOpenBlock (modelroot ++ "_" ++ algotag)
          ++ (m2 ++ defLine :: (m3 ++ "#ifdef __cplusplus" :: c2b :: c2c
            :: (m4 ++ endifLine :: m5))))
      = (doc1 ++ (autogen_comment_lines ts ++ (docC :: (doc2
          ++ pyReplace ("#ifndef " ++ oldG) oldG newG
          :: pyReplace ("#define " ++ oldG) oldG newG
          :: (m1 ++ (nsOpenBlock (modelroot ++ "_" ++ algotag) ++ m2))))))
        ++ defLine :: (m3 ++ "#ifdef __cplusplus" :: c2b :: c2c
          :: (m4 ++ endifLine :: m5)) := by
    simp [List.append_assoc]
  have hrw : algoDefRewrite defLine = staticConstLine name value := by
    rcases hsplit with ⟨p0, rest, hsp⟩
    unfold algoDefRewrite
    rw [hsp]
    rfl
  have s4 : fixAlgoDefine
      ((doc1 ++ (autogen_comment_lines ts ++ (docC :: (doc2
          ++ pyReplace ("#ifndef " ++ oldG) oldG newG
          :: pyReplace ("#define " ++ oldG) oldG newG
          :: (m1 ++ (nsOpenBlock (modelroot ++ "_" ++ algotag) ++ m2))))))
        ++ defLine :: (m3 ++ "#ifdef __cplusplus" :: c2b :: c2c
          :: (m4 ++ endifLine :: m5)))
      = (doc1 ++ (autogen_comment_lines ts ++ (docC :: (doc2
          ++ pyReplace ("#ifndef " ++ oldG) oldG newG
          :: pyReplace ("#define " ++ oldG) oldG newG
          :: (m1 ++ (nsOpenBlock (modelroot ++ "_" ++ algotag) ++ m2))))))
        ++ staticConstLine name value :: (m3 ++ "#ifdef __cplusplus" :: c2b :: c2c
          :: (m4 ++ endifLine :: m5)) := by
    unfold fixAlgoDefine
    rw [replaceFirstLine_decomp _ _ _ defLine _ p4 hdef, hrw]
  have p5 : ∀ x ∈ doc1 ++ (autogen_comment_lines ts ++ (docC :: (doc2
        ++ pyReplace ("#ifndef " ++ oldG) oldG newG
        :: pyReplace ("#define " ++ oldG) oldG newG
        :: (m1 ++ (nsOpenBlock (modelroot ++ "_" ++ algotag)
          ++ (m2 ++ staticConstLine name value :: m3)))))),
      cppIfdefTest x = false := by
    intro x hx
    simp only [List.mem_append, List.mem_cons] at hx
    rcases hx with h | h | rfl | h | rfl | rfl | h | h | h | rfl | h
    · exact (StdLine_spec _ _ (hdoc1 x h).2.1).2.1
    · exact (StdLine_spec _ _ (hauto x h).1).2.1
    · exact (StdLine_spec _ _ hdocC.2.1).2.1
    · exact (StdLine_spec _ _ (hdoc2x x h).1).2.1
    · exact (StdLine_spec _ _ hg1.1).2.1
    · exact (StdLine_spec _ _ hg2.1).2.1
    · exact (StdLine_spec _ _ (hm1x x h).1).2.1
    · exact (StdLine_spec _ _ (hns x h).1).2.1
    · exact (StdLine_spec _ _ (hm2x x h).1).2.1
    · exact cppIfdefTest_staticConstLine name value
    · exact (StdLine_spec _ _ (hm3x x h).1).2.1
  have r5 : (doc1 ++ (autogen_comment_lines ts ++ (docC :: (doc2
          ++ pyReplace ("#ifndef " ++ oldG) oldG newG
          :: pyReplace ("#define " ++ oldG) oldG newG
          :: (m1 ++ (nsOpenBlock (modelroot ++ "_" ++ algotag) ++ m2))))))
        ++ staticConstLine name value :: (m3 ++ "#ifdef __cplusplus" :: c2b :: c2c
          :: (m4 ++ endifLine :: m5))
      = (doc1 ++ (autogen_comment_lines ts ++ (docC :: (doc2
          ++ pyReplace ("#ifndef " ++ oldG) oldG newG
          :: pyReplace ("#define " ++ oldG) oldG newG
          :: (m1 ++ (nsOpenBlock (modelroot ++ "_" ++ algotag)
            ++ (m2 ++ staticConstLine name value :: m3)))))))
        ++ "#ifdef __cplusplus" :: c2b :: c2c :: (m4 ++ endifLine :: m5) := by
    simp [List.append_assoc]
  have s5 : fixSecondCppBlock (modelroot ++ "_" ++ algotag)
      ((doc1 ++ (autogen_comment_lines ts ++ (docC :: (doc2
          ++ pyReplace ("#ifndef " ++ oldG) oldG newG
          :: pyReplace ("#define " ++ oldG) oldG newG
          :: (m1 ++ (nsOpenBlock (modelroot ++ "_" ++ algotag)
            ++ (m2 ++ staticConstLine name value :: m3)))))))
        ++ "#ifdef __cplusplus" :: c2b :: c2c :: (m4 ++ endifLine :: m5))
      = (doc1 ++ (autogen_comment_lines ts ++ (docC :: (doc2
          ++ pyReplace ("#ifndef " ++ oldG) oldG newG
          :: pyReplace ("#define " ++ oldG) oldG newG
          :: (m1 ++ (nsOpenBlock (modelroot ++ "_" ++ algotag)
            ++ (m2 ++ staticConstLine name value :: m3)))))))
        ++ (oneshotBlock (modelroot ++ "_" ++ algotag)
          ++ (m4 ++ endifLine :: m5)) :=
    fixSecondCppBlock_decomp _ _ _ _ _ _ p5 (by decide)
  have hsc6 : (strContains (staticConstLine name value) "#endif"
      && strContains (staticConstLine name value) oldG) = false := by
    rw [hSG, Bool.and_false]
  have p6 : ∀ x ∈ doc1 ++ (autogen_comment_lines ts ++ (docC :: (doc2
        ++ pyReplace ("#ifndef " ++ oldG) oldG newG
        :: pyReplace ("#define " ++ oldG) oldG newG
        :: (m1 ++ (nsOpenBlock (modelroot ++ "_" ++ algotag)
          ++ (m2 ++ staticConstLine name value
            :: (m3 ++ (oneshotBlock (modelroot ++ "_" ++ algotag) ++ m4)))))))),
      (strContains x "#endif" && strContains x oldG) = false := by
    intro x hx
    simp only [List.mem_append, List.mem_cons] at hx
    rcases hx with h | h | rfl | h | rfl | rfl | h | h | h | rfl | h | h | h
    · exact (StdLine_spec _ _ (hdoc1 x h).2.1).2.2.2
    · exact (StdLine_spec _ _ (hauto x h).1).2.2.2
    · exact (StdLine_spec _ _ hdocC.2.1).2.2.2
    · exact (StdLine_spec _ _ (hdoc2x x h).1).2.2.2
    · exact (StdLine_spec _ _ hg1.1).2.2.2
    · exact (StdLine_spec _ _ hg2.1).2.2.2
    · exact (StdLine_spec _ _ (hm1x x h).1).2.2.2
    · exact (StdLine_spec _ _ (hns x h).1).2.2.2
    · exact (StdLine_spec _ _ (hm2x x h).1).2.2.2
    · exact hsc6
    · exact (StdLine_spec _ _ (hm3x x h).1).2.2.2
    · exact (StdLine_spec _ _ (hone x h).1).2.2.2
    · exact (StdLine_spec _ _ (hm4x x h).1).2.2.2
  have r6 : (doc1 ++ (autogen_comment_lines ts ++ (docC :: (doc2
          ++ pyReplace ("#ifndef " ++ oldG) oldG newG
          :: pyReplace ("#define " ++ oldG) oldG newG
          :: (m1 ++ (nsOpenBlock (modelroot ++ "_" ++ algotag)
            ++ (m2 ++ staticConstLine name value :: m3)))))))
        ++ (oneshotBlock (modelroot ++ "_" ++ algotag)
          ++ (m4 ++ endifLine :: m5))
      = (doc1 ++ (autogen_comment_lines ts ++ (docC :: (doc2
          ++ pyReplace ("#ifndef " ++ oldG) oldG newG
          :: pyReplace ("#define " ++ oldG) oldG newG
          :: (m1 ++ (nsOpenBlock (modelroot ++ "_" ++ algotag)
            ++ (m2 ++ staticConstLine name value
              :: (m3 ++ (oneshotBlock (modelroot ++ "_" ++ algotag) ++ m4)))))))))
        ++ endifLine :: m5 := by
    simp [List.append_assoc]
  have s6 : fixEndifGuard oldG newG
      ((doc1 ++ (autogen_comment_lines ts ++ (docC :: (doc2
          ++ pyReplace ("#ifndef " ++ oldG) oldG newG
          :: pyReplace ("#define " ++ oldG) oldG newG
          :: (m1 ++ (nsOpenBlock (modelroot ++ "_" ++ algotag)
            ++ (m2 ++ staticConstLine name value
              :: (m3 ++ (oneshotBlock (modelroot ++ "_" ++ algotag) ++ m4)))))))))
        ++ endifLine :: m5)
      = (doc1 ++ (autogen_comment_lines ts ++ (docC :: (doc2
          ++ pyReplace ("#ifndef " ++ oldG) oldG newG
          :: pyReplace ("#define " ++ oldG) oldG newG
          :: (m1 ++ (nsOpenBlock (modelroot ++ "_" ++ algotag)
            ++ (m2 ++ staticConstLine name value
              :: (m3 ++ (oneshotBlock (modelroot ++ "_" ++ algotag) ++ m4)))))))))
        ++ pyReplace endifLine oldG newG :: m5 := by
    unfold fixEndifGuard
    rw [replaceFirstLine_decomp _ _ _ endifLine _ p6 hendif]
  have hpipe : convert_h_to_hpp modelroot algotag oldG newG ts
      (doc1 ++ docC :: (doc2 ++ ("#ifndef " ++ oldG) :: ("#define " ++ oldG)
        :: (m1 ++ "#ifdef __cplusplus" :: c1b :: c1c :: (m2 ++ defLine
          :: (m3 ++ "#ifdef __cplusplus" :: c2b :: c2c :: (m4 ++ endifLine :: m5))))))
      = fixTypedefFirst (stripStatics
        ((doc1 ++ (autogen_comment_lines ts ++ (docC :: (doc2
            ++ pyReplace ("#ifndef " ++ oldG) oldG newG
            :: pyReplace ("#define " ++ oldG) oldG newG
            :: (m1 ++ (nsOpenBlock (modelroot ++ "_" ++ algotag)
              ++ (m2 ++ staticConstLine name value
                :: (m3 ++ (oneshotBlock (modelroot ++ "_" ++ algotag) ++ m4)))))))))
          ++ pyReplace endifLine oldG newG :: m5)) := by
    unfold convert_h_to_hpp
    rw [s1, r2, s2, r3, s3, r4, s4, r5, s5, r6, s6]
  have e7 : stripStatics
      ((doc1 ++ (autogen_comment_lines ts ++ (docC :: (doc2
          ++ pyReplace ("#ifndef " ++ oldG) oldG newG
          :: pyReplace ("#define " ++ oldG) oldG newG
          :: (m1 ++ (nsOpenBlock (modelroot ++ "_" ++ algotag)
            ++ (m2 ++ staticConstLine name value
              :: (m3 ++ (oneshotBlock (modelroot ++ "_" ++ algotag) ++ m4)))))))))
        ++ pyReplace endifLine oldG newG :: m5)
      = (doc1.map stripStaticLine ++ ((autogen_comment_lines ts).map stripStaticLine
          ++ (stripStaticLine docC :: (doc2.map stripStaticLine
            ++ stripStaticLine (pyReplace ("#ifndef " ++ oldG) oldG newG)
            :: stripStaticLine (pyReplace ("#define " ++ oldG) oldG newG)
            :: (m1.map stripStaticLine
              ++ ((nsOpenBlock (modelroot ++ "_" ++ algotag)).map stripStaticLine
                ++ m2.map stripStaticLine))))))
        ++ constLine name value
        :: (m3.map stripStaticLine
          ++ ((oneshotBlock (modelroot ++ "_" ++ algotag)).map stripStaticLine
            ++ (m4.map stripStaticLine
              ++ stripStaticLine (pyReplace endifLine oldG newG)
              :: m5.map stripStaticLine))) := by
    simp only [stripStatics, List.map_append, List.map_cons, stripStaticLine_staticConstLine]
    simp [List.append_assoc]
  constructor
  · obtain ⟨A, B, h8⟩ := replaceFirstLine_exists_decomp
      (fun l => strContains l "typedef uint_fast")
      (fun l => pyReplace1 l "typedef uint_fast" "typedef uint")
      (doc1.map stripStaticLine ++ ((autogen_comment_lines ts).map stripStaticLine
        ++ (stripStaticLine docC :: (doc2.map stripStaticLine
          ++ stripStaticLine (pyReplace ("#ifndef " ++ oldG) oldG newG)
          :: stripStaticLine (pyReplace ("#define " ++ oldG) oldG newG)
          :: (m1.map stripStaticLine
            ++ ((nsOpenBlock (modelroot ++ "_" ++ algotag)).map stripStaticLine
              ++ m2.map stripStaticLine))))))
      (constLine name value)
      (m3.map stripStaticLine
        ++ ((oneshotBlock (modelroot ++ "_" ++ algotag)).map stripStaticLine
          ++ (m4.map stripStaticLine
            ++ stripStaticLine (pyReplace endifLine oldG newG)
            :: m5.map stripStaticLine))) hTD
    refine ⟨A, B, ?_⟩
    rw [hpipe]
    unfold fixTypedefFirst
    rw [e7]
    exact h8
  · intro l hl
    rw [hpipe] at hl
    unfold fixTypedefFirst at hl
    rcases mem_replaceFirstLine _ _ _ l hl with hl7 | ⟨y, hy, hpy, hly⟩
    · unfold stripStatics at hl7
      rcases List.mem_map.mp hl7 with ⟨z, hz, hzl⟩
      rw [← hzl]
      simp only [List.mem_append, List.mem_cons] at hz
      rcases hz with (h | h | rfl | h | rfl | rfl | h | h | h | rfl | h | h | h) | rfl | h
      · exact (hdoc1 z h).2.2
      · exact (hauto z h).2
      · exact hdocC.2.2
      · exact (hdoc2x z h).2
      · exact hg1.2
      · exact hg2.2
      · exact (hm1x z h).2
      · exact (hns z h).2
      · exact (hm2x z h).2
      · rw [stripStaticLine_staticConstLine]
        exact constLine_ne_staticConstLine name value name value
      · exact (hm3x z h).2
      · exact (hone z h).2
      · exact (hm4x z h).2
      · exact hendif2
      · exact (hm5x z h).2
    · subst hly
      intro heq
      have heq2 : pyReplace1 y "typedef uint_fast" "typedef uint"
          = staticConstLine name value := heq
      have hc := pyReplace1_typedef_contains y hpy
      rw [heq2] at hc
      rw [hTU] at hc
      simp at hc

/-- Witness for C10 on a full pycrc-shaped header: doc comment, guard
    pair, both conditional blocks, algorithm define, typedef and function
    declarations, and the final guard `#endif`. -/
theorem c10_witness :
    algoDefTest "#define CRC_ALGO_TABLE_DRIVEN 1" = true
    ∧ ((∃ A B, convert_h_to_hpp "crc8" "nibble" "CRC8_NIBBLE_H"
          "ACE_CRC_CRC8_NIBBLE_HPP" "T"
          ["/**", " * \\file crc8_nibble.h",
           " * Functions and types for CRC checks.", " */",
           "#ifndef CRC8_NIBBLE_H", "#define CRC8_NIBBLE_H", "",
           "#include <stdlib.h>", "#include <stdint.h>", "",
           "#ifdef __cplusplus", "extern \"C\" \x7b", "#endif", "",
           "/**", " * The definition of the used algorithm.", " */",
           "#define CRC_ALGO_TABLE_DRIVEN 1", "",
           "typedef uint_fast8_t crc_t;", "",
           "crc_t crc_init(void);",
           "crc_t crc_update(crc_t crc, const void *data, size_t data_len);",
           "crc_t crc_finalize(crc_t crc);", "",
           "#ifdef __cplusplus",
           "\x7d           /* closing brace for extern \"C\" */", "#endif", "",
           "#endif      /* CRC8_NIBBLE_H */"]
        = A ++ constLine "CRC_ALGO_TABLE_DRIVEN" "1" :: B)
      ∧ ∀ l ∈ convert_h_to_hpp "crc8" "nibble" "CRC8_NIBBLE_H"
          "ACE_CRC_CRC8_NIBBLE_HPP" "T"
          ["/**", " * \\file crc8_nibble.h",
           " * Functions and types for CRC checks.", " */",
           "#ifndef CRC8_NIBBLE_H", "#define CRC8_NIBBLE_H", "",
           "#include <stdlib.h>", "#include <stdint.h>", "",
           "#ifdef __cplusplus", "extern \"C\" \x7b", "#endif", "",
           "/**", " * The definition of the used algorithm.", " */",
           "#define CRC_ALGO_TABLE_DRIVEN 1", "",
           "typedef uint_fast8_t crc_t;", "",
           "crc_t crc_init(void);",
           "crc_t crc_update(crc_t crc, const void *data, size_t data_len);",
           "crc_t crc_finalize(crc_t crc);", "",
           "#ifdef __cplusplus",
           "\x7d           /* closing brace for extern \"C\" */", "#endif", "",
           "#endif      /* CRC8_NIBBLE_H */"],
          l ≠ staticConstLine "CRC_ALGO_TABLE_DRIVEN" "1") := by
  refine ⟨by decide, ?_⟩
  exact c10_algo_define_static_then_stripped "crc8" "nibble" "CRC8_NIBBLE_H"
    "ACE_CRC_CRC8_NIBBLE_HPP" "T" "CRC_ALGO_TABLE_DRIVEN" "1"
    ["/**", " * \\file crc8_nibble.h", " * Functions and types for CRC checks."]
    " */" [] ["", "#include <stdlib.h>", "#include <stdint.h>", ""]
    "extern \"C\" \x7b" "#endif"
    ["", "/**", " * The definition of the used algorithm.", " */"]
    "#define CRC_ALGO_TABLE_DRIVEN 1"
    ["", "typedef uint_fast8_t crc_t;", "",
     "crc_t crc_init(void);",
     "crc_t crc_update(crc_t crc, const void *data, size_t data_len);",
     "crc_t crc_finalize(crc_t crc);", ""]
    "\x7d           /* closing brace for extern \"C\" */" "#endif" [""]
    "#endif      /* CRC8_NIBBLE_H */" []
    (by decide) (by decide) (by decide) (by decide) (by decide) (by decide)
    (by decide) (by decide) (by decide) ⟨"#define", [], by decide⟩
    (by decide) (by decide) (by decide) (by decide) (by decide)

end Crumbs

namespace Crumbs

/-! ## Analysis of the word-boundary scanners.

    An all-word-character pattern with `\b` on both sides matches exactly
    the maximal word-character runs of the subject equal to the pattern, so
    each substitution of `wreplace` acts independently on maximal runs.
    The lemmas below establish this run-wise view of `wbSubAux` and
    `algoSubAux` and derive the idempotence of `wreplace` for the symbol
    roots the scripts use. -/

/-- Every character is a word character. -/
def AllWord (cs : List Char) : Prop :=
  ∀ c ∈ cs, isWordChar c = true

instance (cs : List Char) : Decidable (AllWord cs) := by
  unfold AllWord
  infer_instance

theorem isPrefixOf_ex (a s : List Char) (h : a.isPrefixOf s = true) :
    ∃ t, s = a ++ t := by
  induction a generalizing s with
  | nil => exact ⟨s, rfl⟩
  | cons x xs ih =>
    cases s with
    | nil => simp [List.isPrefixOf] at h
    | cons y ys =>
      simp only [List.isPrefixOf, Bool.and_eq_true, beq_iff_eq] at h
      rcases ih ys h.2 with ⟨t, ht⟩
      exact ⟨t, by rw [h.1, ht]; rfl⟩

theorem isPrefixOf_head_false (o c : Char) (os t : List Char)
    (ho : isWordChar o = true) (hc : isWordChar c = false) :
    (o :: os).isPrefixOf (c :: t) = false := by
  simp only [List.isPrefixOf, Bool.and_eq_false_iff]
  left
  rw [beq_eq_false_iff_ne]
  intro he
  rw [he, hc] at ho
  exact Bool.false_ne_true ho

/-- Consuming a skip region: the scanner drops exactly `xs.length`
    characters, and since they are all word characters `pw` ends `true`. -/
theorem wbSubAux_skip (old new : List Char) (xs : List Char) (t : List Char)
    (pw : Bool) (hxs : xs ≠ []) (hw : AllWord xs) :
    wbSubAux old new xs.length pw (xs ++ t) = wbSubAux old new 0 true t := by
  induction xs generalizing pw with
  | nil => exact absurd rfl hxs
  | cons x xs' ih =>
    have hx : isWordChar x = true := hw x (List.mem_cons_self x xs')
    cases xs' with
    | nil =>
      show wbSubAux old new 1 pw (x :: t) = wbSubAux old new 0 true t
      show wbSubAux old new 0 (isWordChar x) t = wbSubAux old new 0 true t
      rw [hx]
    | cons y ys =>
      show wbSubAux old new (y :: ys).length.succ pw (x :: ((y :: ys) ++ t))
        = wbSubAux old new 0 true t
      show wbSubAux old new (y :: ys).length (isWordChar x) ((y :: ys) ++ t)
        = wbSubAux old new 0 true t
      apply ih
      · simp
      · intro c hc
        exact hw c (List.mem_cons_of_mem x hc)

/-- A non-word head passes through unchanged and resets `pw`. -/
theorem wbSubAux_nonword (old new : List Char) (c : Char) (t : List Char)
    (pw : Bool) (hold : old ≠ []) (hw : AllWord old) (hc : isWordChar c = false) :
    wbSubAux old new 0 pw (c :: t) = c :: wbSubAux old new 0 false t := by
  cases old with
  | nil => exact absurd rfl hold
  | cons o os =>
    have ho : isWordChar o = true := hw o (List.mem_cons_self o os)
    have hpf := isPrefixOf_head_false o c os t ho hc
    show (if (!pw && !(o :: os).isEmpty && (o :: os).isPrefixOf (c :: t)
        && nextNonWord ((c :: t).drop (o :: os).length))
      then _ else c :: wbSubAux (o :: os) new 0 (isWordChar c) t) = _
    rw [hpf]
    simp [hc]

/-- On a tail that is empty or starts with a non-word character, the
    incoming `pw` is irrelevant. -/
theorem wbSubAux_pw_irrel (old new : List Char) (rest : List Char)
    (pw pw' : Bool) (hold : old ≠ []) (hw : AllWord old)
    (hr : nextNonWord rest = true) :
    wbSubAux old new 0 pw rest = wbSubAux old new 0 pw' rest := by
  cases rest with
  | nil => rfl
  | cons d t =>
    have hd : isWordChar d = false := by
      simp only [nextNonWord, Bool.not_eq_true'] at hr
      exact hr
    rw [wbSubAux_nonword old new d t pw hold hw hd,
      wbSubAux_nonword old new d t pw' hold hw hd]

/-- Inside a word run with `pw = true`, the scanner copies characters
    verbatim (`\b` cannot hold between two word characters). -/
theorem wbSubAux_run_true (old new : List Char) (xs t : List Char)
    (hw : AllWord xs) :
    wbSubAux old new 0 true (xs ++ t) = xs ++ wbSubAux old new 0 true t := by
  induction xs with
  | nil => rfl
  | cons x xs' ih =>
    have hx : isWordChar x = true := hw x (List.mem_cons_self x xs')
    have hstep : wbSubAux old new 0 true (x :: (xs' ++ t))
        = x :: wbSubAux old new 0 (isWordChar x) (xs' ++ t) := by
      simp [wbSubAux]
    rw [List.cons_append, hstep, hx, ih fun c hc => hw c (List.mem_cons_of_mem x hc)]
    rfl

theorem takeWhile_append_all (a u : List Char) (ha : AllWord a) :
    (a ++ u).takeWhile isWordChar = a ++ u.takeWhile isWordChar := by
  induction a with
  | nil => rfl
  | cons x xs ih =>
    have hx : isWordChar x = true := ha x (List.mem_cons_self x xs)
    rw [List.cons_append, List.takeWhile_cons, hx]
    simp only [if_true]
    rw [ih fun c hc => ha c (List.mem_cons_of_mem x hc)]
    rfl

theorem takeWhile_nextNonWord (u : List Char) (hu : nextNonWord u = true) :
    u.takeWhile isWordChar = [] := by
  cases u with
  | nil => rfl
  | cons d t =>
    have hd : isWordChar d = false := by
      simp only [nextNonWord, Bool.not_eq_true'] at hu
      exact hu
    rw [List.takeWhile_cons, hd]
    rfl

/-- An all-word prefix followed by a word boundary is exactly the maximal
    word run of the string. -/
theorem takeWhile_of_boundary (a s : List Char) (ha : AllWord a)
    (hpf : a.isPrefixOf s = true)
    (hnx : nextNonWord (s.drop a.length) = true) :
    s.takeWhile isWordChar = a := by
  rcases isPrefixOf_ex a s hpf with ⟨u, rfl⟩
  rw [List.drop_left] at hnx
  rw [takeWhile_append_all a u ha, takeWhile_nextNonWord u hnx]
  simp

/-- A match of an all-word pattern starting at the head of a maximal word
    run consumes the whole run: the pattern equals the run. -/
theorem match_eq_run (old run rest : List Char)
    (hw : AllWord old) (hrw : AllWord run) (hrest : nextNonWord rest = true)
    (hpf : old.isPrefixOf (run ++ rest) = true)
    (hnx : nextNonWord ((run ++ rest).drop old.length) = true) :
    old = run := by
  have h1 : (run ++ rest).takeWhile isWordChar = old :=
    takeWhile_of_boundary old (run ++ rest) hw hpf hnx
  have h2 : (run ++ rest).takeWhile isWordChar = run := by
    rw [takeWhile_append_all run rest hrw, takeWhile_nextNonWord rest hrest]
    simp
  rw [← h1, h2]

theorem wbSubAux_cons_zero (old new : List Char) (pw : Bool) (c : Char)
    (cs : List Char) :
    wbSubAux old new 0 pw (c :: cs)
      = if (!pw && !old.isEmpty && old.isPrefixOf (c :: cs)
           && nextNonWord ((c :: cs).drop old.length))
        then new ++ wbSubAux old new (old.length - 1) (isWordChar c) cs
        else c :: wbSubAux old new 0 (isWordChar c) cs := rfl

/-- The replacement function on a maximal word run. -/
def fRun (old new r : List Char) : List Char :=
  if r = old then new else r

/-- The scanner acts on a maximal word run exactly as the per-run exact
    replacement. -/
theorem wbSubAux_run_step (old new run rest : List Char)
    (hwo : AllWord old) (holdne : old ≠ [])
    (hwr : AllWord run) (hrne : run ≠ [])
    (hrest : nextNonWord rest = true) :
    wbSubAux old new 0 false (run ++ rest)
      = fRun old new run ++ wbSubAux old new 0 false rest := by
  cases run with
  | nil => exact absurd rfl hrne
  | cons r run' =>
    have hr : isWordChar r = true := hwr r (List.mem_cons_self r run')
    have hrun'w : AllWord run' := fun c hc => hwr c (List.mem_cons_of_mem r hc)
    rw [List.cons_append, wbSubAux_cons_zero]
    by_cases hcond : (!false && !old.isEmpty && old.isPrefixOf (r :: (run' ++ rest))
        && nextNonWord ((r :: (run' ++ rest)).drop old.length)) = true
    · have hparts := hcond
      simp only [Bool.and_eq_true] at hparts
      have hpf : old.isPrefixOf ((r :: run') ++ rest) = true := by
        rw [List.cons_append]
        exact hparts.1.2
      have hnx : nextNonWord (((r :: run') ++ rest).drop old.length) = true := by
        rw [List.cons_append]
        exact hparts.2
      have heq : old = r :: run' := match_eq_run old (r :: run') rest hwo hwr hrest hpf hnx
      rw [if_pos hcond]
      have hfr : fRun old new (r :: run') = new := by
        unfold fRun
        rw [if_pos heq.symm]
      rw [hfr]
      have hlen : old.length - 1 = run'.length := by rw [heq]; simp
      rw [hlen]
      cases run' with
      | nil =>
        rw [List.nil_append, List.length_nil]
        rw [show wbSubAux old new 0 (isWordChar r) rest
            = wbSubAux old new 0 false rest from
          wbSubAux_pw_irrel old new rest _ _ holdne hwo hrest]
      | cons q run'' =>
        rw [wbSubAux_skip old new (q :: run'') rest (isWordChar r) (by simp) hrun'w]
        rw [wbSubAux_pw_irrel old new rest true false holdne hwo hrest]
    · rw [if_neg hcond]
      have hne : ¬(r :: run') = old := by
        intro he
        apply hcond
        have hpf : old.isPrefixOf (r :: (run' ++ rest)) = true := by
          rw [show r :: (run' ++ rest) = (r :: run') ++ rest from rfl, ← he]
          exact isPrefixOf_append_self _ _
        have hnx : nextNonWord ((r :: (run' ++ rest)).drop old.length) = true := by
          rw [show r :: (run' ++ rest) = (r :: run') ++ rest from rfl, ← he,
            List.drop_left]
          exact hrest
        simp [hpf, hnx, holdne, List.isEmpty_iff]
      have hfr : fRun old new (r :: run') = r :: run' := by
        unfold fRun
        rw [if_neg hne]
      rw [hfr, hr, wbSubAux_run_true old new run' rest hrun'w,
        wbSubAux_pw_irrel old new rest true false holdne hwo hrest]
      rfl

theorem takeWhile_append_pred (p : Char → Bool) (a u : List Char)
    (ha : ∀ c ∈ a, p c = true) :
    (a ++ u).takeWhile p = a ++ u.takeWhile p := by
  induction a with
  | nil => rfl
  | cons x xs ih =>
    have hx : p x = true := ha x (List.mem_cons_self x xs)
    rw [List.cons_append, List.takeWhile_cons, hx]
    simp only [if_true]
    rw [ih fun c hc => ha c (List.mem_cons_of_mem x hc)]
    rfl

theorem dropWhile_append_pred (p : Char → Bool) (a u : List Char)
    (ha : ∀ c ∈ a, p c = true) :
    (a ++ u).dropWhile p = u.dropWhile p := by
  induction a with
  | nil => rfl
  | cons x xs ih =>
    have hx : p x = true := ha x (List.mem_cons_self x xs)
    rw [List.cons_append, List.dropWhile_cons, hx]
    simp only [if_true]
    exact ih fun c hc => ha c (List.mem_cons_of_mem x hc)

theorem classChar_isWordChar (c : Char) (h : isClassChar c = true) :
    isWordChar c = true := by
  unfold isClassChar at h
  unfold isWordChar
  rcases Bool.or_eq_true_iff.mp h with h | h
  · rcases Bool.or_eq_true_iff.mp h with h | h
    · simp [h]
    · simp [h]
  · simp [h]

theorem nonWord_notClass (c : Char) (h : isWordChar c = false) :
    isClassChar c = false := by
  cases hc : isClassChar c
  · rfl
  · rw [classChar_isWordChar c hc] at h
    exact absurd h (by simp)

/-- The matched-run form of the `CRC_ALGO` rule: the run is the literal
    followed by a nonempty group of class characters. -/
def algoForm (run : List Char) : Bool :=
  algoLit.isPrefixOf run && !(run.drop 9).isEmpty && (run.drop 9).all isClassChar

/-- The per-run action of the `CRC_ALGO` rule. -/
def fAlgo (pu run : List Char) : List Char :=
  if algoForm run then pu ++ "_ALGO_".data ++ run.drop 9 else run

theorem algoSubAux_cons_zero (pu : List Char) (pw : Bool) (c : Char)
    (cs : List Char) :
    algoSubAux pu 0 pw (c :: cs)
      = if (!pw && algoLit.isPrefixOf (c :: cs)
           && !(((c :: cs).drop 9).takeWhile isClassChar).isEmpty
           && nextNonWord (((c :: cs).drop 9).dropWhile isClassChar))
        then pu ++ "_ALGO_".data ++ ((c :: cs).drop 9).takeWhile isClassChar
          ++ algoSubAux pu (9 + (((c :: cs).drop 9).takeWhile isClassChar).length - 1)
              (isWordChar c) cs
        else c :: algoSubAux pu 0 (isWordChar c) cs := rfl

theorem algoSubAux_skip (pu : List Char) (xs t : List Char) (pw : Bool)
    (hxs : xs ≠ []) (hw : AllWord xs) :
    algoSubAux pu xs.length pw (xs ++ t) = algoSubAux pu 0 true t := by
  induction xs generalizing pw with
  | nil => exact absurd rfl hxs
  | cons x xs' ih =>
    have hx : isWordChar x = true := hw x (List.mem_cons_self x xs')
    cases xs' with
    | nil =>
      show algoSubAux pu 0 (isWordChar x) t = algoSubAux pu 0 true t
      rw [hx]
    | cons y ys =>
      show algoSubAux pu (y :: ys).length (isWordChar x) ((y :: ys) ++ t)
        = algoSubAux pu 0 true t
      apply ih
      · simp
      · intro c hc
        exact hw c (List.mem_cons_of_mem x hc)

theorem algoSubAux_nonword (pu : List Char) (c : Char) (t : List Char)
    (pw : Bool) (hc : isWordChar c = false) :
    algoSubAux pu 0 pw (c :: t) = c :: algoSubAux pu 0 false t := by
  have hpf : algoLit.isPrefixOf (c :: t) = false :=
    isPrefixOf_head_false 'C' c _ t (by decide) hc
  rw [algoSubAux_cons_zero, hpf]
  simp [hc]

theorem algoSubAux_pw_irrel (pu : List Char) (rest : List Char) (pw pw' : Bool)
    (hr : nextNonWord rest = true) :
    algoSubAux pu 0 pw rest = algoSubAux pu 0 pw' rest := by
  cases rest with
  | nil => rfl
  | cons d t =>
    have hd : isWordChar d = false := by
      simp only [nextNonWord, Bool.not_eq_true'] at hr
      exact hr
    rw [algoSubAux_nonword pu d t pw hd, algoSubAux_nonword pu d t pw' hd]

theorem algoSubAux_run_true (pu : List Char) (xs t : List Char)
    (hw : AllWord xs) :
    algoSubAux pu 0 true (xs ++ t) = xs ++ algoSubAux pu 0 true t := by
  induction xs with
  | nil => rfl
  | cons x xs' ih =>
    have hx : isWordChar x = true := hw x (List.mem_cons_self x xs')
    have hstep : algoSubAux pu 0 true (x :: (xs' ++ t))
        = x :: algoSubAux pu 0 (isWordChar x) (xs' ++ t) := by
      rw [algoSubAux_cons_zero]
      simp
    rw [List.cons_append, hstep, hx, ih fun c hc => hw c (List.mem_cons_of_mem x hc)]
    rfl

theorem takeWhile_class_nextNonWord (u : List Char) (hu : nextNonWord u = true) :
    u.takeWhile isClassChar = [] := by
  cases u with
  | nil => rfl
  | cons d t =>
    have hd : isWordChar d = false := by
      simp only [nextNonWord, Bool.not_eq_true'] at hu
      exact hu
    rw [List.takeWhile_cons, nonWord_notClass d hd]
    rfl

theorem dropWhile_class_nextNonWord (u : List Char) (hu : nextNonWord u = true) :
    u.dropWhile isClassChar = u := by
  cases u with
  | nil => rfl
  | cons d t =>
    have hd : isWordChar d = false := by
      simp only [nextNonWord, Bool.not_eq_true'] at hu
      exact hu
    rw [List.dropWhile_cons, nonWord_notClass d hd]
    rfl

theorem algoLit_allWord : AllWord algoLit := by
  intro c hc
  fin_cases hc <;> decide

/-- The `CRC_ALGO` scanner acts on a maximal word run exactly as the
    per-run form-based replacement. -/
theorem algoSubAux_run_step (pu run rest : List Char)
    (hwr : AllWord run) (hrne : run ≠ [])
    (hrest : nextNonWord rest = true) :
    algoSubAux pu 0 false (run ++ rest)
      = fAlgo pu run ++ algoSubAux pu 0 false rest := by
  cases run with
  | nil => exact absurd rfl hrne
  | cons r run' =>
    have hr : isWordChar r = true := hwr r (List.mem_cons_self r run')
    have hrun'w : AllWord run' := fun c hc => hwr c (List.mem_cons_of_mem r hc)
    have h9 : algoLit.length = 9 := rfl
    rw [List.cons_append, algoSubAux_cons_zero]
    by_cases hform : algoForm (r :: run') = true
    · have hparts := hform
      unfold algoForm at hparts
      simp only [Bool.and_eq_true, Bool.not_eq_true', List.isEmpty_iff] at hparts
      obtain ⟨⟨hpf9, hGne⟩, hGcls⟩ := hparts
      obtain ⟨u, hu⟩ := isPrefixOf_ex algoLit (r :: run') hpf9
      have hG : (r :: run').drop 9 = u := by
        rw [hu, ← h9, List.drop_left]
      have hGclsm : ∀ c ∈ u, isClassChar c = true := by
        intro c hc
        rw [← hG] at hc
        exact List.all_eq_true.mp hGcls c hc
      have hdrop9 : (r :: (run' ++ rest)).drop 9 = u ++ rest := by
        rw [show r :: (run' ++ rest) = (r :: run') ++ rest from rfl, hu,
          List.append_assoc, ← h9, List.drop_left]
      have htw : ((r :: (run' ++ rest)).drop 9).takeWhile isClassChar = u := by
        rw [hdrop9, takeWhile_append_pred isClassChar u rest hGclsm,
          takeWhile_class_nextNonWord rest hrest]
        simp
      have hdw : ((r :: (run' ++ rest)).drop 9).dropWhile isClassChar = rest := by
        rw [hdrop9, dropWhile_append_pred isClassChar u rest hGclsm,
          dropWhile_class_nextNonWord rest hrest]
      have hpfs : algoLit.isPrefixOf (r :: (run' ++ rest)) = true := by
        rw [show r :: (run' ++ rest) = (r :: run') ++ rest from rfl, hu,
          List.append_assoc]
        exact isPrefixOf_append_self _ _
      have hune : u ≠ [] := by
        intro h
        rw [hG, h] at hGne
        simp at hGne
      have hcond : (!false && algoLit.isPrefixOf (r :: (run' ++ rest))
          && !(((r :: (run' ++ rest)).drop 9).takeWhile isClassChar).isEmpty
          && nextNonWord (((r :: (run' ++ rest)).drop 9).dropWhile isClassChar)) = true := by
        rw [hpfs, htw, hdw, hrest]
        simp [List.isEmpty_iff, hune]
      rw [if_pos hcond, htw]
      have hfa : fAlgo pu (r :: run') = pu ++ "_ALGO_".data ++ u := by
        unfold fAlgo
        rw [if_pos hform, hG]
      rw [hfa]
      have hlrun : run'.length = 9 + u.length - 1 := by
        have : (r :: run').length = algoLit.length + u.length := by
          rw [hu, List.length_append]
        simp only [List.length_cons, h9] at this
        omega
      have hruntail : run' = "RC_ALGO_".data ++ u := by
        have : r :: run' = 'C' :: ("RC_ALGO_".data ++ u) := by
          rw [hu]; rfl
        exact (List.cons.injEq _ _ _ _).mp this |>.2
      have hskip : algoSubAux pu (9 + u.length - 1) (isWordChar r) (run' ++ rest)
          = algoSubAux pu 0 true rest := by
        rw [show (9 : Nat) + u.length - 1 = run'.length from by omega]
        apply algoSubAux_skip pu run' rest (isWordChar r) ?_ hrun'w
        rw [hruntail]
        simp
      rw [hskip, algoSubAux_pw_irrel pu rest true false hrest]
    · by_cases hcond : (!false && algoLit.isPrefixOf (r :: (run' ++ rest))
          && !(((r :: (run' ++ rest)).drop 9).takeWhile isClassChar).isEmpty
          && nextNonWord (((r :: (run' ++ rest)).drop 9).dropWhile isClassChar)) = true
      · exfalso
        apply hform
        have hparts := hcond
        simp only [Bool.and_eq_true, Bool.not_eq_true', List.isEmpty_iff] at hparts
        obtain ⟨⟨⟨_, hpfs⟩, hgne⟩, hnxs⟩ := hparts
        obtain ⟨u', hu'⟩ := isPrefixOf_ex algoLit (r :: (run' ++ rest)) hpfs
        have hd9 : (r :: (run' ++ rest)).drop 9 = u' := by
          rw [hu', ← h9, List.drop_left]
        have hgcls : ∀ c ∈ u'.takeWhile isClassChar, isClassChar c = true :=
          fun c hc => List.mem_takeWhile_imp hc
        have hold'w : AllWord (algoLit ++ u'.takeWhile isClassChar) := by
          intro c hc
          rcases List.mem_append.mp hc with hc | hc
          · exact algoLit_allWord c hc
          · exact classChar_isWordChar c (hgcls c hc)
        have hsplit : (r :: run') ++ rest
            = (algoLit ++ u'.takeWhile isClassChar) ++ u'.dropWhile isClassChar := by
          rw [List.append_assoc, List.takeWhile_append_dropWhile]
          exact hu'
        have hpf' : (algoLit ++ u'.takeWhile isClassChar).isPrefixOf
            ((r :: run') ++ rest) = true := by
          rw [hsplit]
          exact isPrefixOf_append_self _ _
        have hnx' : nextNonWord (((r :: run') ++ rest).drop
            (algoLit ++ u'.takeWhile isClassChar).length) = true := by
          rw [hsplit, List.drop_left]
          rw [hd9] at hnxs
          exact hnxs
        have heqr : algoLit ++ u'.takeWhile isClassChar = r :: run' :=
          match_eq_run _ _ rest hold'w hwr hrest hpf' hnx'
        unfold algoForm
        rw [← heqr]
        have hd9' : (algoLit ++ u'.takeWhile isClassChar).drop 9
            = u'.takeWhile isClassChar := by
          rw [← h9, List.drop_left]
        rw [hd9']
        rw [hd9] at hgne
        simp only [Bool.and_eq_true]
        refine ⟨⟨isPrefixOf_append_self _ _, ?_⟩, ?_⟩
        · simp [List.isEmpty_iff, hgne]
        · exact List.all_eq_true.mpr hgcls
      · rw [if_neg hcond]
        have hfa : fAlgo pu (r :: run') = r :: run' := by
          unfold fAlgo
          rw [if_neg hform]
        rw [hfa, hr, algoSubAux_run_true pu run' rest hrun'w,
          algoSubAux_pw_irrel pu rest true false hrest]
        rfl

end Crumbs

namespace Crumbs

/-! ## The full `wreplace` chain, run by run. -/

/-- The data-level form of `wreplace`: the six word-boundary substitutions
    then the `CRC_ALGO` substitution, in program order. -/
def wreplaceD (pfx : String) (cs : List Char) : List Char :=
  algoSubAux (pyUpper pfx).data 0 false
    (wbSubAux "crc_table".data (pfx ++ "_crc_table").data 0 false
      (wbSubAux "crc_calculate".data (pfx ++ "_calculate").data 0 false
        (wbSubAux "crc_finalize".data (pfx ++ "_finalize").data 0 false
          (wbSubAux "crc_update".data (pfx ++ "_update").data 0 false
            (wbSubAux "crc_init".data (pfx ++ "_init").data 0 false
              (wbSubAux "crc_t".data (pfx ++ "_t").data 0 false cs))))))

theorem wreplace_data (pfx s : String) :
    (wreplace pfx s).data = wreplaceD pfx s.data := rfl

/-- The per-run action of the whole `wreplace` chain. -/
def runPipe (pfx : String) (r : List Char) : List Char :=
  fAlgo (pyUpper pfx).data
    (fRun "crc_table".data (pfx ++ "_crc_table").data
      (fRun "crc_calculate".data (pfx ++ "_calculate").data
        (fRun "crc_finalize".data (pfx ++ "_finalize").data
          (fRun "crc_update".data (pfx ++ "_update").data
            (fRun "crc_init".data (pfx ++ "_init").data
              (fRun "crc_t".data (pfx ++ "_t").data r))))))

/-- The conditions on the symbol root under which `wreplace` is
    idempotent; they hold for every fileroot the scripts use (checked by
    `decide` in the witness). -/
def GoodPfx (pfx : String) : Prop :=
  AllWord pfx.data ∧ pfx.data ≠ []
  ∧ AllWord (pyUpper pfx).data ∧ (pyUpper pfx).data ≠ []
  ∧ (pyUpper pfx).data.head? ≠ some 'c'
  ∧ (pyUpper pfx).data.take 4 ≠ "CRC_".data
  ∧ 4 ≤ (pyUpper pfx).data.length
  ∧ (∀ sfx ∈ ["_t", "_init", "_update", "_finalize", "_calculate", "_crc_table"],
      (∀ old ∈ ["crc_t", "crc_init", "crc_update", "crc_finalize", "crc_calculate",
          "crc_table"],
        (pfx ++ sfx).data ≠ old.data)
      ∧ ((pfx ++ sfx).data).take 9 ≠ algoLit)

instance (pfx : String) : Decidable (GoodPfx pfx) := by
  unfold GoodPfx AllWord
  infer_instance

theorem allWord_append (a b : List Char) (ha : AllWord a) (hb : AllWord b) :
    AllWord (a ++ b) := by
  intro c hc
  rcases List.mem_append.mp hc with h | h
  · exact ha c h
  · exact hb c h

theorem fRun_self (o n : List Char) : fRun o n o = n := if_pos rfl

theorem fRun_other (o n r : List Char) (h : r ≠ o) : fRun o n r = r := if_neg h

theorem fAlgo_not (pu r : List Char) (h : algoForm r = false) : fAlgo pu r = r := by
  unfold fAlgo
  rw [h]
  rfl

theorem isPrefixOf_take (a s : List Char) (h : a.isPrefixOf s = true) :
    s.take a.length = a := by
  rcases isPrefixOf_ex a s h with ⟨t, rfl⟩
  exact List.take_left a t

theorem notForm_of_take9 (n : List Char) (h : n.take 9 ≠ algoLit) :
    algoForm n = false := by
  cases hp : algoLit.isPrefixOf n
  · unfold algoForm
    rw [hp]
    rfl
  · exfalso
    apply h
    have := isPrefixOf_take algoLit n hp
    rwa [show algoLit.length = 9 from rfl] at this

theorem notForm_append (pu z : List Char) (h4 : pu.take 4 ≠ "CRC_".data)
    (hl : 4 ≤ pu.length) : algoForm (pu ++ z) = false := by
  apply notForm_of_take9
  intro h9
  apply h4
  have h44 : ((pu ++ z).take 9).take 4 = algoLit.take 4 := by rw [h9]
  rw [List.take_take] at h44
  rw [show min 4 9 = 4 from rfl] at h44
  rw [List.take_append_of_le_length hl] at h44
  exact h44

theorem append_ne_of_head (pu z o : List Char) (hpu : pu ≠ [])
    (hh : pu.head? ≠ some 'c') (ho : o.head? = some 'c') : pu ++ z ≠ o := by
  intro he
  cases pu with
  | nil => exact hpu rfl
  | cons p ps =>
    apply hh
    have : (p :: (ps ++ z)).head? = o.head? := by rw [← he]; rfl
    rw [ho] at this
    simpa using this

/-- One word-boundary stage, packaged: the run-wise action together with
    the invariants needed to keep chaining. -/
theorem chainStep (old new run rest : List Char)
    (hwo : AllWord old) (holdne : old ≠ [])
    (hwn : AllWord new) (hnne : new ≠ [])
    (hwr : AllWord run) (hrne : run ≠ []) (hrest : nextNonWord rest = true) :
    wbSubAux old new 0 false (run ++ rest)
        = fRun old new run ++ wbSubAux old new 0 false rest
      ∧ AllWord (fRun old new run) ∧ fRun old new run ≠ []
      ∧ nextNonWord (wbSubAux old new 0 false rest) = true := by
  refine ⟨wbSubAux_run_step old new run rest hwo holdne hwr hrne hrest, ?_, ?_, ?_⟩
  · unfold fRun
    by_cases h : run = old
    · rw [if_pos h]; exact hwn
    · rw [if_neg h]; exact hwr
  · unfold fRun
    by_cases h : run = old
    · rw [if_pos h]; exact hnne
    · rw [if_neg h]; exact hrne
  · cases rest with
    | nil => rfl
    | cons d t =>
      have hd : isWordChar d = false := by
        simp only [nextNonWord, Bool.not_eq_true'] at hrest
        exact hrest
      rw [wbSubAux_nonword old new d t false holdne hwo hd]
      simp [nextNonWord, hd]

/-- The `CRC_ALGO` stage, packaged the same way. -/
theorem algoStep (pu run rest : List Char)
    (hwpu : AllWord pu) (hpune : pu ≠ [])
    (hwr : AllWord run) (hrne : run ≠ []) (hrest : nextNonWord rest = true) :
    algoSubAux pu 0 false (run ++ rest)
        = fAlgo pu run ++ algoSubAux pu 0 false rest
      ∧ AllWord (fAlgo pu run) ∧ fAlgo pu run ≠ [] := by
  refine ⟨algoSubAux_run_step pu run rest hwr hrne hrest, ?_, ?_⟩
  · unfold fAlgo
    by_cases h : algoForm run = true
    · rw [if_pos h]
      apply allWord_append
      · apply allWord_append _ _ hwpu
        intro c hc
        fin_cases hc <;> decide
      · intro c hc
        exact hwr c (List.drop_subset 9 run hc)
    · rw [if_neg h]; exact hwr
  · unfold fAlgo
    by_cases h : algoForm run = true
    · rw [if_pos h]
      simp [hpune]
    · rw [if_neg h]; exact hrne

theorem wreplaceD_nonword (pfx : String) (c : Char) (t : List Char)
    (hc : isWordChar c = false) :
    wreplaceD pfx (c :: t) = c :: wreplaceD pfx t := by
  unfold wreplaceD
  rw [wbSubAux_nonword "crc_t".data _ c _ false (by decide) (by decide) hc]
  rw [wbSubAux_nonword "crc_init".data _ c _ false (by decide) (by decide) hc]
  rw [wbSubAux_nonword "crc_update".data _ c _ false (by decide) (by decide) hc]
  rw [wbSubAux_nonword "crc_finalize".data _ c _ false (by decide) (by decide) hc]
  rw [wbSubAux_nonword "crc_calculate".data _ c _ false (by decide) (by decide) hc]
  rw [wbSubAux_nonword "crc_table".data _ c _ false (by decide) (by decide) hc]
  rw [algoSubAux_nonword _ c _ false hc]

theorem nextNonWord_wreplaceD (pfx : String) (cs : List Char)
    (h : nextNonWord cs = true) :
    nextNonWord (wreplaceD pfx cs) = true := by
  cases cs with
  | nil => rfl
  | cons d t =>
    have hd : isWordChar d = false := by
      simp only [nextNonWord, Bool.not_eq_true'] at h
      exact h
    rw [wreplaceD_nonword pfx d t hd]
    simp [nextNonWord, hd]

/-- The whole `wreplace` chain acts on a maximal word run through the
    per-run pipeline. -/
theorem wreplaceD_run (pfx : String) (hgp : GoodPfx pfx) (run rest : List Char)
    (hwr : AllWord run) (hrne : run ≠ []) (hrest : nextNonWord rest = true) :
    wreplaceD pfx (run ++ rest) = runPipe pfx run ++ wreplaceD pfx rest := by
  obtain ⟨hwp, hpne, hwpu, hpune, _⟩ := hgp
  have hdata : ∀ sfx : String, (pfx ++ sfx).data = pfx.data ++ sfx.data :=
    fun sfx => String.data_append pfx sfx
  have hwn : ∀ sfx : String, AllWord sfx.data → AllWord (pfx ++ sfx).data := by
    intro sfx hsfx
    rw [hdata]
    exact allWord_append _ _ hwp hsfx
  have hnne : ∀ sfx : String, sfx.data ≠ [] → (pfx ++ sfx).data ≠ [] := by
    intro sfx hsfx
    rw [hdata]
    simp [hsfx]
  obtain ⟨e1, w1, ne1, r1⟩ := chainStep "crc_t".data (pfx ++ "_t").data run _
    (by decide) (by decide) (hwn _ (by decide)) (hnne _ (by decide)) hwr hrne hrest
  obtain ⟨e2, w2, ne2, r2⟩ := chainStep "crc_init".data (pfx ++ "_init").data _ _
    (by decide) (by decide) (hwn _ (by decide)) (hnne _ (by decide)) w1 ne1 r1
  obtain ⟨e3, w3, ne3, r3⟩ := chainStep "crc_update".data (pfx ++ "_update").data _ _
    (by decide) (by decide) (hwn _ (by decide)) (hnne _ (by decide)) w2 ne2 r2
  obtain ⟨e4, w4, ne4, r4⟩ := chainStep "crc_finalize".data (pfx ++ "_finalize").data _ _
    (by decide) (by decide) (hwn _ (by decide)) (hnne _ (by decide)) w3 ne3 r3
  obtain ⟨e5, w5, ne5, r5⟩ := chainStep "crc_calculate".data (pfx ++ "_calculate").data _ _
    (by decide) (by decide) (hwn _ (by decide)) (hnne _ (by decide)) w4 ne4 r4
  obtain ⟨e6, w6, ne6, r6⟩ := chainStep "crc_table".data (pfx ++ "_crc_table").data _ _
    (by decide) (by decide) (hwn _ (by decide)) (hnne _ (by decide)) w5 ne5 r5
  obtain ⟨e7, _, _⟩ := algoStep (pyUpper pfx).data _ _ hwpu hpune w6 ne6 r6
  show algoSubAux (pyUpper pfx).data 0 false
      (wbSubAux "crc_table".data (pfx ++ "_crc_table").data 0 false
        (wbSubAux "crc_calculate".data (pfx ++ "_calculate").data 0 false
          (wbSubAux "crc_finalize".data (pfx ++ "_finalize").data 0 false
            (wbSubAux "crc_update".data (pfx ++ "_update").data 0 false
              (wbSubAux "crc_init".data (pfx ++ "_init").data 0 false
                (wbSubAux "crc_t".data (pfx ++ "_t").data 0 false (run ++ rest)))))))
    = runPipe pfx run ++ wreplaceD pfx rest
  rw [e1, e2, e3, e4, e5, e6, e7]
  rfl

theorem runPipe_fixed (pfx : String) (x : List Char)
    (hx : ∀ old ∈ ["crc_t", "crc_init", "crc_update", "crc_finalize",
        "crc_calculate", "crc_table"], x ≠ old.data)
    (hxf : algoForm x = false) :
    runPipe pfx x = x := by
  unfold runPipe
  rw [fRun_other _ _ _ (hx "crc_t" (by decide)),
    fRun_other _ _ _ (hx "crc_init" (by decide)),
    fRun_other _ _ _ (hx "crc_update" (by decide)),
    fRun_other _ _ _ (hx "crc_finalize" (by decide)),
    fRun_other _ _ _ (hx "crc_calculate" (by decide)),
    fRun_other _ _ _ (hx "crc_table" (by decide))]
  exact fAlgo_not _ _ hxf

/-- The value of the per-run pipeline: a prefixed identifier, the
    `CRC_ALGO` replacement, or the run unchanged. -/
theorem runPipe_val_cases (pfx : String) (hgp : GoodPfx pfx) (r : List Char) :
    (∃ sfx, sfx ∈ ["_t", "_init", "_update", "_finalize", "_calculate", "_crc_table"]
      ∧ runPipe pfx r = (pfx ++ sfx).data)
    ∨ (runPipe pfx r = (pyUpper pfx).data ++ "_ALGO_".data ++ r.drop 9
        ∧ algoForm r = true)
    ∨ runPipe pfx r = r := by
  obtain ⟨hwp, hpne, hwpu, hpune, hhd, h4t, h4l, h8⟩ := hgp
  by_cases h1 : r = "crc_t".data
  · subst h1
    have hval : runPipe pfx "crc_t".data = (pfx ++ "_t").data := by
      unfold runPipe
      rw [fRun_self,
        fRun_other _ _ _ ((h8 "_t" (by decide)).1 "crc_init" (by decide)),
        fRun_other _ _ _ ((h8 "_t" (by decide)).1 "crc_update" (by decide)),
        fRun_other _ _ _ ((h8 "_t" (by decide)).1 "crc_finalize" (by decide)),
        fRun_other _ _ _ ((h8 "_t" (by decide)).1 "crc_calculate" (by decide)),
        fRun_other _ _ _ ((h8 "_t" (by decide)).1 "crc_table" (by decide))]
      exact fAlgo_not _ _ (notForm_of_take9 _ (h8 "_t" (by decide)).2)
    exact Or.inl ⟨"_t", by decide, hval⟩
  by_cases h2 : r = "crc_init".data
  · subst h2
    have hval : runPipe pfx "crc_init".data = (pfx ++ "_init").data := by
      unfold runPipe
      rw [fRun_other _ _ _ (by decide : "crc_init".data ≠ "crc_t".data), fRun_self,
        fRun_other _ _ _ ((h8 "_init" (by decide)).1 "crc_update" (by decide)),
        fRun_other _ _ _ ((h8 "_init" (by decide)).1 "crc_finalize" (by decide)),
        fRun_other _ _ _ ((h8 "_init" (by decide)).1 "crc_calculate" (by decide)),
        fRun_other _ _ _ ((h8 "_init" (by decide)).1 "crc_table" (by decide))]
      exact fAlgo_not _ _ (notForm_of_take9 _ (h8 "_init" (by decide)).2)
    exact Or.inl ⟨"_init", by decide, hval⟩
  by_cases h3 : r = "crc_update".data
  · subst h3
    have hval : runPipe pfx "crc_update".data = (pfx ++ "_update").data := by
      unfold runPipe
      rw [fRun_other _ _ _ (by decide : "crc_update".data ≠ "crc_t".data),
        fRun_other _ _ _ (by decide : "crc_update".data ≠ "crc_init".data), fRun_self,
        fRun_other _ _ _ ((h8 "_update" (by decide)).1 "crc_finalize" (by decide)),
        fRun_other _ _ _ ((h8 "_update" (by decide)).1 "crc_calculate" (by decide)),
        fRun_other _ _ _ ((h8 "_update" (by decide)).1 "crc_table" (by decide))]
      exact fAlgo_not _ _ (notForm_of_take9 _ (h8 "_update" (by decide)).2)
    exact Or.inl ⟨"_update", by decide, hval⟩
  by_cases h4 : r = "crc_finalize".data
  · subst h4
    have hval : runPipe pfx "crc_finalize".data = (pfx ++ "_finalize").data := by
      unfold runPipe
      rw [fRun_other _ _ _ (by decide : "crc_finalize".data ≠ "crc_t".data),
        fRun_other _ _ _ (by decide : "crc_finalize".data ≠ "crc_init".data),
        fRun_other _ _ _ (by decide : "crc_finalize".data ≠ "crc_update".data), fRun_self,
        fRun_other _ _ _ ((h8 "_finalize" (by decide)).1 "crc_calculate" (by decide)),
        fRun_other _ _ _ ((h8 "_finalize" (by decide)).1 "crc_table" (by decide))]
      exact fAlgo_not _ _ (notForm_of_take9 _ (h8 "_finalize" (by decide)).2)
    exact Or.inl ⟨"_finalize", by decide, hval⟩
  by_cases h5 : r = "crc_calculate".data
  · subst h5
    have hval : runPipe pfx "crc_calculate".data = (pfx ++ "_calculate").data := by
      unfold runPipe
      rw [fRun_other _ _ _ (by decide : "crc_calculate".data ≠ "crc_t".data),
        fRun_other _ _ _ (by decide : "crc_calculate".data ≠ "crc_init".data),
        fRun_other _ _ _ (by decide : "crc_calculate".data ≠ "crc_update".data),
        fRun_other _ _ _ (by decide : "crc_calculate".data ≠ "crc_finalize".data), fRun_self,
        fRun_other _ _ _ ((h8 "_calculate" (by decide)).1 "crc_table" (by decide))]
      exact fAlgo_not _ _ (notForm_of_take9 _ (h8 "_calculate" (by decide)).2)
    exact Or.inl ⟨"_calculate", by decide, hval⟩
  by_cases h6 : r = "crc_table".data
  · subst h6
    have hval : runPipe pfx "crc_table".data = (pfx ++ "_crc_table").data := by
      unfold runPipe
      rw [fRun_other _ _ _ (by decide : "crc_table".data ≠ "crc_t".data),
        fRun_other _ _ _ (by decide : "crc_table".data ≠ "crc_init".data),
        fRun_other _ _ _ (by decide : "crc_table".data ≠ "crc_update".data),
        fRun_other _ _ _ (by decide : "crc_table".data ≠ "crc_finalize".data),
        fRun_other _ _ _ (by decide : "crc_table".data ≠ "crc_calculate".data), fRun_self]
      exact fAlgo_not _ _ (notForm_of_take9 _ (h8 "_crc_table" (by decide)).2)
    exact Or.inl ⟨"_crc_table", by decide, hval⟩
  by_cases hf : algoForm r = true
  · have hne : ∀ old ∈ ["crc_t", "crc_init", "crc_update", "crc_finalize",
        "crc_calculate", "crc_table"], r ≠ old.data := by
      intro old hold
      fin_cases hold
      · exact h1
      · exact h2
      · exact h3
      · exact h4
      · exact h5
      · exact h6
    have hval : runPipe pfx r
        = (pyUpper pfx).data ++ "_ALGO_".data ++ r.drop 9 := by
      unfold runPipe
      rw [fRun_other _ _ _ (hne "crc_t" (by decide)),
        fRun_other _ _ _ (hne "crc_init" (by decide)),
        fRun_other _ _ _ (hne "crc_update" (by decide)),
        fRun_other _ _ _ (hne "crc_finalize" (by decide)),
        fRun_other _ _ _ (hne "crc_calculate" (by decide)),
        fRun_other _ _ _ (hne "crc_table" (by decide))]
      unfold fAlgo
      rw [if_pos hf]
    exact Or.inr (Or.inl ⟨hval, hf⟩)
  · have hne : ∀ old ∈ ["crc_t", "crc_init", "crc_update", "crc_finalize",
        "crc_calculate", "crc_table"], r ≠ old.data := by
      intro old hold
      fin_cases hold
      · exact h1
      · exact h2
      · exact h3
      · exact h4
      · exact h5
      · exact h6
    exact Or.inr (Or.inr (runPipe_fixed pfx r hne (by simpa using hf)))

/-- Idempotence of the per-run pipeline. -/
theorem runPipe_idem (pfx : String) (hgp : GoodPfx pfx) (r : List Char) :
    runPipe pfx (runPipe pfx r) = runPipe pfx r := by
  obtain ⟨hwp, hpne, hwpu, hpune, hhd, h4t, h4l, h8⟩ := hgp
  rcases runPipe_val_cases pfx ⟨hwp, hpne, hwpu, hpune, hhd, h4t, h4l, h8⟩ r with
    ⟨sfx, hsfx, hval⟩ | ⟨hval, _⟩ | hval
  · rw [hval]
    exact runPipe_fixed pfx _ (fun old hold => (h8 sfx hsfx).1 old hold)
      (notForm_of_take9 _ (h8 sfx hsfx).2)
  · rw [hval]
    have hassoc : (pyUpper pfx).data ++ "_ALGO_".data ++ r.drop 9
        = (pyUpper pfx).data ++ ("_ALGO_".data ++ r.drop 9) :=
      List.append_assoc _ _ _
    rw [hassoc]
    exact runPipe_fixed pfx _
      (fun old hold => append_ne_of_head _ _ _ hpune hhd (by fin_cases hold <;> rfl))
      (notForm_append _ _ h4t h4l)
  · rw [hval]
    exact hval

theorem fRun_pres (o n r : List Char) (hwn : AllWord n) (hnne : n ≠ [])
    (hwr : AllWord r) (hrne : r ≠ []) :
    AllWord (fRun o n r) ∧ fRun o n r ≠ [] := by
  unfold fRun
  by_cases h : r = o
  · rw [if_pos h]; exact ⟨hwn, hnne⟩
  · rw [if_neg h]; exact ⟨hwr, hrne⟩

theorem fAlgo_pres (pu r : List Char) (hwpu : AllWord pu) (hpune : pu ≠ [])
    (hwr : AllWord r) (hrne : r ≠ []) :
    AllWord (fAlgo pu r) ∧ fAlgo pu r ≠ [] := by
  unfold fAlgo
  by_cases h : algoForm r = true
  · rw [if_pos h]
    constructor
    · apply allWord_append
      · apply allWord_append _ _ hwpu
        intro c hc
        fin_cases hc <;> decide
      · intro c hc
        exact hwr c (List.drop_subset 9 r hc)
    · simp [hpune]
  · rw [if_neg h]; exact ⟨hwr, hrne⟩

theorem runPipe_pres (pfx : String) (hgp : GoodPfx pfx) (r : List Char)
    (hwr : AllWord r) (hrne : r ≠ []) :
    AllWord (runPipe pfx r) ∧ runPipe pfx r ≠ [] := by
  obtain ⟨hwp, hpne, hwpu, hpune, _⟩ := hgp
  have hwn : ∀ sfx : String, AllWord sfx.data → AllWord (pfx ++ sfx).data := by
    intro sfx hsfx
    rw [String.data_append]
    exact allWord_append _ _ hwp hsfx
  have hnne : ∀ sfx : String, sfx.data ≠ [] → (pfx ++ sfx).data ≠ [] := by
    intro sfx hsfx
    rw [String.data_append]
    simp [hsfx]
  have p1 := fRun_pres "crc_t".data (pfx ++ "_t").data r
    (hwn _ (by decide)) (hnne _ (by decide)) hwr hrne
  have p2 := fRun_pres "crc_init".data (pfx ++ "_init").data _
    (hwn _ (by decide)) (hnne _ (by decide)) p1.1 p1.2
  have p3 := fRun_pres "crc_update".data (pfx ++ "_update").data _
    (hwn _ (by decide)) (hnne _ (by decide)) p2.1 p2.2
  have p4 := fRun_pres "crc_finalize".data (pfx ++ "_finalize").data _
    (hwn _ (by decide)) (hnne _ (by decide)) p3.1 p3.2
  have p5 := fRun_pres "crc_calculate".data (pfx ++ "_calculate").data _
    (hwn _ (by decide)) (hnne _ (by decide)) p4.1 p4.2
  have p6 := fRun_pres "crc_table".data (pfx ++ "_crc_table").data _
    (hwn _ (by decide)) (hnne _ (by decide)) p5.1 p5.2
  exact fAlgo_pres (pyUpper pfx).data _ hwpu hpune p6.1 p6.2

theorem nextNonWord_dropWhile (l : List Char) :
    nextNonWord (l.dropWhile isWordChar) = true := by
  induction l with
  | nil => rfl
  | cons x xs ih =>
    rw [List.dropWhile_cons]
    by_cases hx : isWordChar x = true
    · rw [if_pos hx]; exact ih
    · rw [if_neg hx]
      simp only [nextNonWord, Bool.not_eq_true'] at hx ⊢
      simpa using hx

/-- Idempotence of the full chain on character lists, by strong induction
    over the run decomposition. -/
theorem wreplaceD_idem (pfx : String) (hgp : GoodPfx pfx) :
    ∀ n cs, cs.length ≤ n →
      wreplaceD pfx (wreplaceD pfx cs) = wreplaceD pfx cs := by
  intro n
  induction n with
  | zero =>
    intro cs hcs
    have : cs = [] := List.length_eq_zero.mp (Nat.le_zero.mp hcs)
    subst this
    rfl
  | succ n ih =>
    intro cs hcs
    cases cs with
    | nil => rfl
    | cons c t =>
      by_cases hc : isWordChar c = true
      · have hsplit : (c :: t).takeWhile isWordChar ++ (c :: t).dropWhile isWordChar
            = c :: t := by rw [List.takeWhile_append_dropWhile]
        have hrne : (c :: t).takeWhile isWordChar ≠ [] := by
          rw [List.takeWhile_cons, if_pos hc]
          simp
        have hwr : AllWord ((c :: t).takeWhile isWordChar) :=
          fun x hx => List.mem_takeWhile_imp hx
        have hrest : nextNonWord ((c :: t).dropWhile isWordChar) = true :=
          nextNonWord_dropWhile (c :: t)
        have hlen : ((c :: t).dropWhile isWordChar).length ≤ n := by
          have hl : ((c :: t).takeWhile isWordChar).length
              + ((c :: t).dropWhile isWordChar).length = t.length + 1 := by
            rw [← List.length_append, hsplit]
            rfl
          have hp : 0 < ((c :: t).takeWhile isWordChar).length :=
            List.length_pos.mpr hrne
          have hct : t.length + 1 ≤ n + 1 := hcs
          omega
        rw [← hsplit]
        rw [wreplaceD_run pfx hgp _ _ hwr hrne hrest]
        obtain ⟨hpw, hpne⟩ := runPipe_pres pfx hgp _ hwr hrne
        rw [wreplaceD_run pfx hgp _ _ hpw hpne
          (nextNonWord_wreplaceD pfx _ hrest)]
        rw [runPipe_idem pfx hgp, ih _ hlen]
      · have hc' : isWordChar c = false := by simpa using hc
        have hlen : t.length ≤ n := by
          have := hcs
          simp only [List.length_cons] at this
          omega
        rw [wreplaceD_nonword pfx c t hc', wreplaceD_nonword pfx c _ hc',
          ih t hlen]

/-- C4: the identifier-prefixing substitution `wreplace` is idempotent.
    For every text line `s` and every symbol root satisfying `GoodPfx` —
    which holds for all sixteen `modelroot_algotag` roots the scripts can
    produce — applying `wreplace` a second time with the same root leaves
    the already-prefixed result unchanged: no identifier is ever
    double-prefixed. -/
theorem c4_wreplace_idempotent (pfx s : String) (hgp : GoodPfx pfx) :
    wreplace pfx (wreplace pfx s) = wreplace pfx s := by
  apply String.ext
  simp only [wreplace_data]
  exact wreplaceD_idem pfx hgp s.data.length s.data (Nat.le_refl _)

/-- Witness for C4: `GoodPfx` holds for all sixteen fileroots, and the
    idempotence theorem applies at a concrete already-prefixed line. -/
theorem c4_witness :
    (∀ pfx ∈ ["crc8_bit", "crc8_nibble", "crc8_nibblem", "crc8_byte",
        "crc16ccitt_bit", "crc16ccitt_nibble", "crc16ccitt_nibblem", "crc16ccitt_byte",
        "crc16modbus_bit", "crc16modbus_nibble", "crc16modbus_nibblem", "crc16modbus_byte",
        "crc32_bit", "crc32_nibble", "crc32_nibblem", "crc32_byte"], GoodPfx pfx)
    ∧ wreplace "crc8_nibble" (wreplace "crc8_nibble"
        "crc_t crc_update(crc_t crc, const void *data); CRC_ALGO_TABLE_DRIVEN crc_table[4]")
      = wreplace "crc8_nibble"
        "crc_t crc_update(crc_t crc, const void *data); CRC_ALGO_TABLE_DRIVEN crc_table[4]" := by
  constructor
  · decide
  · exact c4_wreplace_idempotent "crc8_nibble" _ (by decide)

end Crumbs

namespace Crumbs

/-! ## Substring avoidance through the converters (for C3). -/

theorem isPrefixOf_ext (a x y : List Char) (h : a.isPrefixOf x = true) :
    a.isPrefixOf (x ++ y) = true := by
  rcases isPrefixOf_ex a x h with ⟨t, rfl⟩
  rw [List.append_assoc]
  exact isPrefixOf_append_self a (t ++ y)

theorem containsSub_left_mono (d : Char) (ds a b : List Char)
    (h : containsSub (d :: ds) a = true) :
    containsSub (d :: ds) (a ++ b) = true := by
  induction a with
  | nil => simp [containsSub] at h
  | cons x a' ih =>
    rcases Bool.or_eq_true_iff.mp h with h | h
    · show (((d :: ds).isPrefixOf (x :: (a' ++ b))) || _) = true
      rw [show x :: (a' ++ b) = (x :: a') ++ b from rfl, isPrefixOf_ext _ _ _ h]
      rfl
    · show (_ || containsSub (d :: ds) (a' ++ b)) = true
      rw [ih h]
      simp


theorem containsSub_right_mono (d : Char) (ds a b : List Char)
    (h : containsSub (d :: ds) b = true) :
    containsSub (d :: ds) (a ++ b) = true := by
  induction a with
  | nil => exact h
  | cons x a' ih =>
    show (_ || containsSub (d :: ds) (a' ++ b)) = true
    rw [ih]
    simp

theorem not_containsSub_append (d : Char) (ds a b : List Char) (ha : d ∉ a)
    (hb : containsSub (d :: ds) b = false) :
    containsSub (d :: ds) (a ++ b) = false := by
  induction a with
  | nil => exact hb
  | cons x a' ih =>
    have hdx : (d == x) = false := by
      rw [beq_eq_false_iff_ne]
      intro he
      exact ha (he ▸ List.mem_cons_self x a')
    show (((d :: ds).isPrefixOf (x :: (a' ++ b))) || containsSub (d :: ds) (a' ++ b)) = false
    rw [show ((d :: ds).isPrefixOf (x :: (a' ++ b)))
        = ((d == x) && ds.isPrefixOf (a' ++ b)) from rfl, hdx]
    rw [ih fun hm => ha (List.mem_cons_of_mem x hm)]
    rfl

theorem isPrefixOf_append_elim (needle X B : List Char) (hw : AllWord needle)
    (hB : nextNonWord B = true) (h : needle.isPrefixOf (X ++ B) = true) :
    needle.isPrefixOf X = true := by
  by_cases hlen : needle.length ≤ X.length
  · have h1 : (X ++ B).take needle.length = needle := isPrefixOf_take needle (X ++ B) h
    rw [List.take_append_eq_append_take] at h1
    have h2 : needle.length - X.length = 0 := Nat.sub_eq_zero_of_le hlen
    rw [h2, List.take_zero, List.append_nil] at h1
    have h3 : X = needle ++ X.drop needle.length := by
      conv_lhs => rw [← List.take_append_drop needle.length X]
      rw [h1]
    rw [h3]
    exact isPrefixOf_append_self _ _
  · exfalso
    have h1 : needle = (X ++ B).take needle.length :=
      (isPrefixOf_take needle _ h).symm
    rw [List.take_append_eq_append_take] at h1
    have h2 : X.take needle.length = X := List.take_of_length_le (by omega)
    rw [h2] at h1
    cases hBc : B with
    | nil =>
      rw [hBc] at h1
      simp only [List.take_nil, List.append_nil] at h1
      exact hlen (by rw [h1])
    | cons b0 B' =>
      obtain ⟨k, hk⟩ : ∃ k, needle.length - X.length = k + 1 :=
        ⟨needle.length - X.length - 1, by omega⟩
      rw [hBc, hk, List.take_succ_cons] at h1
      have hb0 : b0 ∈ needle := by
        rw [h1]
        exact List.mem_append_right _ (List.mem_cons_self _ _)
      have hbw : isWordChar b0 = true := hw b0 hb0
      rw [hBc] at hB
      simp only [nextNonWord, Bool.not_eq_true'] at hB
      rw [hB] at hbw
      exact Bool.false_ne_true hbw

theorem not_containsSub_append_parts (needle A B : List Char) (hw : AllWord needle)
    (hB : nextNonWord B = true)
    (hA : containsSub needle A = false) (hBc : containsSub needle B = false) :
    containsSub needle (A ++ B) = false := by
  induction A with
  | nil => exact hBc
  | cons a A' ih =>
    have hA' : (needle.isPrefixOf (a :: A') = false)
        ∧ containsSub needle A' = false := by
      have := hA
      show _ ∧ _
      constructor
      · cases hx : needle.isPrefixOf (a :: A')
        · rfl
        · exfalso
          unfold containsSub at this
          rw [hx] at this
          simp at this
      · cases hx : containsSub needle A'
        · rfl
        · exfalso
          unfold containsSub at this
          rw [hx] at this
          simp at this
    show (needle.isPrefixOf (a :: (A' ++ B)) || containsSub needle (A' ++ B)) = false
    have hp : needle.isPrefixOf (a :: (A' ++ B)) = false := by
      cases hx : needle.isPrefixOf (a :: (A' ++ B))
      · rfl
      · exfalso
        have := isPrefixOf_append_elim needle (a :: A') B hw hB
          (by rw [show (a :: A') ++ B = a :: (A' ++ B) from rfl]; exact hx)
        rw [this] at hA'
        exact absurd hA'.1 (by simp)
    rw [hp, ih hA'.2]
    rfl

theorem runPipe_avoid (pfx : String) (hgp : GoodPfx pfx) (d : Char) (ds : List Char)
    (hnews : ∀ sfx ∈ ["_t", "_init", "_update", "_finalize", "_calculate",
        "_crc_table"], containsSub (d :: ds) (pfx ++ sfx).data = false)
    (hd7 : d ∉ (pyUpper pfx).data ++ "_ALGO_".data)
    (r : List Char) (hr : containsSub (d :: ds) r = false) :
    containsSub (d :: ds) (runPipe pfx r) = false := by
  rcases runPipe_val_cases pfx hgp r with ⟨sfx, hsfx, hval⟩ | ⟨hval, _⟩ | hval
  · rw [hval]
    exact hnews sfx hsfx
  · rw [hval]
    rw [show (pyUpper pfx).data ++ "_ALGO_".data ++ r.drop 9
        = ((pyUpper pfx).data ++ "_ALGO_".data) ++ r.drop 9 from rfl]
    apply not_containsSub_append d ds _ _ hd7
    cases hcd : containsSub (d :: ds) (r.drop 9)
    · rfl
    · exfalso
      have hmono := containsSub_right_mono d ds (r.take 9) (r.drop 9) hcd
      rw [List.take_append_drop] at hmono
      rw [hmono] at hr
      exact absurd hr (by simp)
  · rw [hval]
    exact hr

/-- `wreplace` introduces no new occurrence of an all-word-character needle
    that avoids the prefixed identifiers and the upper-cased root. -/
theorem wreplaceD_avoid (pfx : String) (hgp : GoodPfx pfx) (d : Char)
    (ds : List Char) (hwn : AllWord (d :: ds))
    (hnews : ∀ sfx ∈ ["_t", "_init", "_update", "_finalize", "_calculate",
        "_crc_table"], containsSub (d :: ds) (pfx ++ sfx).data = false)
    (hd7 : d ∉ (pyUpper pfx).data ++ "_ALGO_".data) :
    ∀ n cs, cs.length ≤ n → containsSub (d :: ds) cs = false →
      containsSub (d :: ds) (wreplaceD pfx cs) = false := by
  intro n
  induction n with
  | zero =>
    intro cs hcs h
    have : cs = [] := List.length_eq_zero.mp (Nat.le_zero.mp hcs)
    subst this
    exact h
  | succ n ih =>
    intro cs hcs h
    cases cs with
    | nil => exact h
    | cons c t =>
      by_cases hc : isWordChar c = true
      · have hsplit : (c :: t).takeWhile isWordChar ++ (c :: t).dropWhile isWordChar
            = c :: t := by rw [List.takeWhile_append_dropWhile]
        have hrne : (c :: t).takeWhile isWordChar ≠ [] := by
          rw [List.takeWhile_cons, if_pos hc]
          simp
        have hwr : AllWord ((c :: t).takeWhile isWordChar) :=
          fun x hx => List.mem_takeWhile_imp hx
        have hrest : nextNonWord ((c :: t).dropWhile isWordChar) = true :=
          nextNonWord_dropWhile (c :: t)
        have hlen : ((c :: t).dropWhile isWordChar).length ≤ n := by
          have hl : ((c :: t).takeWhile isWordChar).length
              + ((c :: t).dropWhile isWordChar).length = t.length + 1 := by
            rw [← List.length_append, hsplit]
            rfl
          have hp : 0 < ((c :: t).takeWhile isWordChar).length :=
            List.length_pos.mpr hrne
          have hct : t.length + 1 ≤ n + 1 := hcs
          omega
        rw [← hsplit] at h ⊢
        rw [wreplaceD_run pfx hgp _ _ hwr hrne hrest]
        apply not_containsSub_append_parts _ _ _ hwn
          (nextNonWord_wreplaceD pfx _ hrest)
        · apply runPipe_avoid pfx hgp d ds hnews hd7
          cases hcr : containsSub (d :: ds) ((c :: t).takeWhile isWordChar)
          · rfl
          · exfalso
            have := containsSub_left_mono d ds _ ((c :: t).dropWhile isWordChar) hcr
            rw [this] at h
            exact absurd h (by simp)
        · apply ih _ hlen
          cases hcr : containsSub (d :: ds) ((c :: t).dropWhile isWordChar)
          · rfl
          · exfalso
            have := containsSub_right_mono d ds ((c :: t).takeWhile isWordChar) _ hcr
            rw [this] at h
            exact absurd h (by simp)
      · have hc' : isWordChar c = false := by simpa using hc
        have hd : isWordChar d = true := hwn d (List.mem_cons_self d ds)
        rw [wreplaceD_nonword pfx c t hc']
        have hparts : containsSub (d :: ds) t = false := by
          cases hx : containsSub (d :: ds) t
          · rfl
          · exfalso
            have : containsSub (d :: ds) (c :: t) = true := by
              show (_ || containsSub (d :: ds) t) = true
              rw [hx]
              simp
            rw [this] at h
            exact absurd h (by simp)
        have hlen : t.length ≤ n := by
          have := hcs
          simp only [List.length_cons] at this
          omega
        show ((d :: ds).isPrefixOf (c :: wreplaceD pfx t)
            || containsSub (d :: ds) (wreplaceD pfx t)) = false
        rw [isPrefixOf_head_false d c ds _ hd hc', ih t hlen hparts]
        rfl

end Crumbs

namespace Crumbs

/-! ## C3: the nibblem tag never triggers memory-mapped rewriting. -/

/-- A line free of both the PROGMEM annotation and any memory-read call. -/
def AvoidPg (l : String) : Prop :=
  strContains l "PROGMEM" = false ∧ strContains l "pgm_read" = false

instance (l : String) : Decidable (AvoidPg l) := by
  unfold AvoidPg
  infer_instance

theorem mem_includeReplaceWithIdx (f : String) (ls : List String) (x : String)
    (hx : x ∈ (includeReplaceWithIdx f ls).1) :
    x ∈ ls ∨ x = "#include \"" ++ f ++ ".hpp\" // header file converted by AceCRC" := by
  unfold includeReplaceWithIdx at hx
  cases hfi : findIdxO (fun l => strContains l ("#include \"" ++ f ++ ".h\"")) ls with
  | some i =>
    rw [hfi] at hx
    exact List.mem_or_eq_of_mem_set hx
  | none =>
    rw [hfi] at hx
    exact Or.inl hx

theorem mem_nsInsertAfterBlank (f : String) (ls : List String) (x : String)
    (hx : x ∈ nsInsertAfterBlank f ls) :
    x ∈ ls ∨ x ∈ ["", "namespace ace_crc \x7b", "namespace " ++ f ++ " \x7b"] := by
  unfold nsInsertAfterBlank at hx
  cases hfi : findIdxO (fun l => pyStrip l = "") ls with
  | some i =>
    rw [hfi] at hx
    rcases List.mem_append.mp hx with hx | hx
    · rcases List.mem_append.mp hx with hx | hx
      · exact Or.inl (List.take_subset _ ls hx)
      · rcases List.mem_cons.mp hx with hx | hx
        · exact Or.inr (by rw [hx]; simp)
        · rcases List.mem_cons.mp hx with hx | hx
          · exact Or.inr (by rw [hx]; simp)
          · exact Or.inr (by simp at hx; rw [hx]; simp)
    · exact Or.inl (List.drop_subset _ ls hx)
  | none =>
    rw [hfi] at hx
    rcases List.mem_append.mp hx with hx | hx
    · exact Or.inl hx
    · rcases List.mem_cons.mp hx with hx | hx
      · exact Or.inr (by rw [hx]; simp)
      · rcases List.mem_cons.mp hx with hx | hx
        · exact Or.inr (by rw [hx]; simp)
        · rcases List.mem_cons.mp hx with hx | hx
          · exact Or.inr (by rw [hx]; simp)
          · exact Or.inr (by simp at hx; rw [hx]; simp)

theorem mem_insert_auto_comment (ts : String) (ls : List String) (x : String)
    (hx : x ∈ insert_auto_comment ts ls) :
    x ∈ ls ∨ x ∈ ardAutogen ts := by
  unfold insert_auto_comment at hx
  cases hfi : findIdxO (fun l => strContains l "*/") ls with
  | some i =>
    rw [hfi] at hx
    rcases List.mem_append.mp hx with hx | hx
    · rcases List.mem_append.mp hx with hx | hx
      · exact Or.inl (List.take_subset _ ls hx)
      · exact Or.inr hx
    · exact Or.inl (List.drop_subset _ ls hx)
  | none =>
    rw [hfi] at hx
    exact Or.inl hx

/-- The timestamp-bearing auto comment line avoids both needles whenever
    the timestamp does: an occurrence cannot start in the fixed text, which
    contains neither `P` nor `p`. -/
theorem avoid_ts_line (fixedPart ts : String) (hP : 'P' ∉ fixedPart.data)
    (hp : 'p' ∉ fixedPart.data) (hts : AvoidPg ts) :
    AvoidPg (fixedPart ++ ts) := by
  obtain ⟨h1, h2⟩ := hts
  constructor
  · show containsSub "PROGMEM".data (fixedPart ++ ts).data = false
    rw [String.data_append]
    exact not_containsSub_append 'P' "ROGMEM".data _ _ hP h1
  · show containsSub "pgm_read".data (fixedPart ++ ts).data = false
    rw [String.data_append]
    exact not_containsSub_append 'p' "gm_read".data _ _ hp h2

/-- `wreplace` with a good symbol root that avoids both needles preserves
    line-level avoidance. -/
theorem avoid_wreplace (f : String) (hgp : GoodPfx f)
    (hnewsP : ∀ sfx ∈ ["_t", "_init", "_update", "_finalize", "_calculate",
        "_crc_table"], containsSub "PROGMEM".data (f ++ sfx).data = false)
    (hnewsp : ∀ sfx ∈ ["_t", "_init", "_update", "_finalize", "_calculate",
        "_crc_table"], containsSub "pgm_read".data (f ++ sfx).data = false)
    (hd7P : 'P' ∉ (pyUpper f).data ++ "_ALGO_".data)
    (hd7p : 'p' ∉ (pyUpper f).data ++ "_ALGO_".data)
    (y : String) (hy : AvoidPg y) : AvoidPg (wreplace f y) := by
  obtain ⟨h1, h2⟩ := hy
  constructor
  · show containsSub "PROGMEM".data (wreplace f y).data = false
    rw [wreplace_data]
    exact wreplaceD_avoid f hgp 'P' "ROGMEM".data (by decide) hnewsP hd7P
      y.data.length y.data (Nat.le_refl _) h1
  · show containsSub "pgm_read".data (wreplace f y).data = false
    rw [wreplace_data]
    exact wreplaceD_avoid f hgp 'p' "gm_read".data (by decide) hnewsp hd7p
      y.data.length y.data (Nat.le_refl _) h2

/-- C3: for algorithm tag `nibblem` the memory-mapped table rewriting never
    fires.  In both source converters the output is independent of the
    global `CONVERT_TO_PROGMEM` toggle and of the memory-read function
    (first and third conjuncts: the conversion equals the one with the
    toggle off and no read function), and — whenever the input lines and
    the timestamp are free of `PROGMEM`/`pgm_read` text — so is every line
    of the output (second and fourth conjuncts). -/
theorem c3_nibblem_never_progmem
    (modelroot pgm ts : String) (toggle : Bool) (lines : List String)
    (hm : modelroot ∈ ["crc8", "crc16ccitt", "crc16modbus", "crc32"])
    (hts : AvoidPg ts) (hls : ∀ l ∈ lines, AvoidPg l) :
    (convert_c_to_cpp modelroot "nibblem" pgm toggle ts lines
       = convert_c_to_cpp modelroot "nibblem" "" false ts lines)
    ∧ (∀ l ∈ convert_c_to_cpp modelroot "nibblem" pgm toggle ts lines, AvoidPg l)
    ∧ (convert_source (modelroot ++ "_" ++ "nibblem") pgm toggle ts lines
       = convert_source (modelroot ++ "_" ++ "nibblem") "" false ts lines)
    ∧ (∀ l ∈ convert_source (modelroot ++ "_" ++ "nibblem") pgm toggle ts lines, AvoidPg l) := by
  have hbranch : ∀ (pg : String) (tg : Bool),
      convert_c_to_cpp modelroot "nibblem" pg tg ts lines
        = nsClose (modelroot ++ "_" ++ "nibblem")
            (narrowLoopVar "tbl_idx"
              (nsInsertAfterBlank (modelroot ++ "_" ++ "nibblem")
                (includeReplaceWithIdx (modelroot ++ "_" ++ "nibblem")
                  (insert_before_first_match (fun l => strContains l " */")
                    (autogen_comment_lines ts) lines)).1)) := by
    intro pg tg
    simp [convert_c_to_cpp]
  have htag : ((pySplitSep '_' (modelroot ++ "_" ++ "nibblem")).getD 1 "") = "nibblem" := by
    fin_cases hm <;> rfl
  have hbranch2 : ∀ (pg : String) (tg : Bool),
      convert_source (modelroot ++ "_" ++ "nibblem") pg tg ts lines
        = (narrowLoopVar "tbl_idx"
            (replaceFirstLine
              (fun l => strContains l ("#include \"" ++ (modelroot ++ "_" ++ "nibblem") ++ ".h\""))
              (fun _ => "#include \"" ++ (modelroot ++ "_" ++ "nibblem")
                ++ ".hpp\" // header file converted by generator")
              (insert_auto_comment ts lines))).map (wreplace (modelroot ++ "_" ++ "nibblem")) := by
    intro pg tg
    simp only [convert_source, htag]
    simp
  have havoid_inner : ∀ x ∈ narrowLoopVar "tbl_idx"
      (replaceFirstLine
        (fun l => strContains l ("#include \"" ++ (modelroot ++ "_" ++ "nibblem") ++ ".h\""))
        (fun _ => "#include \"" ++ (modelroot ++ "_" ++ "nibblem")
          ++ ".hpp\" // header file converted by generator")
        (insert_auto_comment ts lines)), AvoidPg x := by
    intro x hx
    rcases mem_replaceFirstLine _ _ _ x hx with hx | ⟨_, _, _, hxe⟩
    · rcases mem_replaceFirstLine _ _ _ x hx with hx | ⟨_, _, _, hxe⟩
      · rcases mem_insert_auto_comment ts lines x hx with hx | hx
        · exact hls x hx
        · rcases List.mem_cons.mp hx with hx | hx
          · rw [hx]
            exact avoid_ts_line " * Auto converted to Arduino C++ on " ts
              (by decide) (by decide) hts
          · rcases List.mem_cons.mp hx with hx | hx
            · rw [hx]; decide
            · simp at hx
      · rw [hxe]
        fin_cases hm <;> decide
    · rw [hxe]
      decide
  refine ⟨?_, ?_, ?_, ?_⟩
  · rw [hbranch pgm toggle, hbranch "" false]
  · intro l hl
    rw [hbranch pgm toggle] at hl
    rcases List.mem_append.mp hl with hl | hl
    · rcases mem_replaceFirstLine _ _ _ l hl with hl | ⟨_, _, _, hle⟩
      · rcases mem_nsInsertAfterBlank _ _ l hl with hl | hl
        · rcases mem_includeReplaceWithIdx _ _ l hl with hl | hle
          · rcases mem_insert_before_first_match _ _ _ l hl with hl | hl
            · exact hls l hl
            · rcases List.mem_cons.mp hl with hl | hl
              · rw [hl]
                exact avoid_ts_line " * Auto converted to Arduino C++ on " ts
                  (by decide) (by decide) hts
              · rcases List.mem_cons.mp hl with hl | hl
                · rw [hl]; decide
                · rcases List.mem_cons.mp hl with hl | hl
                  · rw [hl]; decide
                  · simp at hl
          · rw [hle]
            fin_cases hm <;> decide
        · rcases List.mem_cons.mp hl with hl | hl
          · rw [hl]; decide
          · rcases List.mem_cons.mp hl with hl | hl
            · rw [hl]; decide
            · rcases List.mem_cons.mp hl with hl | hl
              · rw [hl]
                fin_cases hm <;> decide
              · simp at hl
      · rw [hle]
        decide
    · rcases List.mem_cons.mp hl with hl | hl
      · rw [hl]; decide
      · rcases List.mem_cons.mp hl with hl | hl
        · rw [hl]
          fin_cases hm <;> decide
        · rcases List.mem_cons.mp hl with hl | hl
          · rw [hl]; decide
          · simp at hl
  · rw [hbranch2 pgm toggle, hbranch2 "" false]
  · intro l hl
    rw [hbranch2 pgm toggle] at hl
    rcases List.mem_map.mp hl with ⟨y, hy, hyl⟩
    rw [← hyl]
    apply avoid_wreplace (modelroot ++ "_" ++ "nibblem")
    · fin_cases hm <;> decide
    · fin_cases hm <;> decide
    · fin_cases hm <;> decide
    · fin_cases hm <;> decide
    · fin_cases hm <;> decide
    · exact havoid_inner y hy

/-- Witness for C3 on a concrete pycrc-like source fragment with the
    toggle forced on. -/
theorem c3_witness :
    "crc8" ∈ ["crc8", "crc16ccitt", "crc16modbus", "crc32"]
    ∧ AvoidPg "T"
    ∧ (∀ l ∈ ["/**", " */", "#include \"crc8_nibblem.h\"", "",
        "crc_t crc_update(crc_t crc, const void *d)", "\x7b",
        "    unsigned int tbl_idx;", "\x7d"], AvoidPg l)
    ∧ (∀ l ∈ convert_c_to_cpp "crc8" "nibblem" "pgm_read_byte" true "T"
        ["/**", " */", "#include \"crc8_nibblem.h\"", "",
         "crc_t crc_update(crc_t crc, const void *d)", "\x7b",
         "    unsigned int tbl_idx;", "\x7d"], AvoidPg l)
    ∧ (∀ l ∈ convert_source ("crc8" ++ "_" ++ "nibblem") "pgm_read_byte" true "T"
        ["/**", " */", "#include \"crc8_nibblem.h\"", "",
         "crc_t crc_update(crc_t crc, const void *d)", "\x7b",
         "    unsigned int tbl_idx;", "\x7d"], AvoidPg l) := by
  refine ⟨by decide, by decide, by decide, ?_, ?_⟩
  · exact (c3_nibblem_never_progmem "crc8" "pgm_read_byte" "T" true _
      (by decide) (by decide) (by decide)).2.1
  · exact (c3_nibblem_never_progmem "crc8" "pgm_read_byte" "T" true _
      (by decide) (by decide) (by decide)).2.2.2

end Crumbs
